import Mathlib

/-!
Verification of the parking-lottery allocation engine of the park-net backend.

The definitions below are a shallow embedding of `app/modules/sorteo/service.py`
(class `LotteryService`) together with the data model of
`app/modules/sorteo/models.py`, `app/modules/solicitudes/models.py` and
`app/modules/residentes/models.py`.  Python strings are Lean `String`s,
MongoDB collections are Lean lists, the `motor` repository calls of
`app/shared/repository.py` are pure list operations, and `datetime` values
are opaque `Nat` ticks.  `random.shuffle` is modelled by an oracle
`sh : Nat → List Candidate → List Candidate` (one call per score tier, in
order); every theorem about the randomized pipeline quantifies over all
oracles whose output is a permutation of their input, which is exactly the
guarantee `random.shuffle` provides.
-/

namespace ParkNet

open scoped List

/-! ### Decimal rendering and parsing (Python `f"{x:0Nd}"` and `int(...)`) -/

/-- The ten decimal digit characters, as Python renders them. -/
def charOfDigit : Nat → Char
  | 0 => '0'
  | 1 => '1'
  | 2 => '2'
  | 3 => '3'
  | 4 => '4'
  | 5 => '5'
  | 6 => '6'
  | 7 => '7'
  | 8 => '8'
  | 9 => '9'
  | _ => '*'

/-- Value of a decimal digit character, `none` for non-digits. -/
def digitVal? (c : Char) : Option Nat :=
  if '0' ≤ c ∧ c ≤ '9' then some (c.toNat - 48) else none

/-- Fuel-indexed decimal rendering; `fuel` bounds the number of digits and is
always sufficient when `n < fuel` (structural recursion keeps the function
computable by the kernel). -/
def decRenderAux (fuel : Nat) (n : Nat) : List Char :=
  match fuel with
  | 0 => []
  | fuel + 1 =>
    if n < 10 then [charOfDigit n]
    else decRenderAux fuel (n / 10) ++ [charOfDigit (n % 10)]

/-- Decimal rendering of a natural number, most significant digit first
(no leading zeros), as Python `str(n)` produces for `n ≥ 0`. -/
def decRender (n : Nat) : List Char := decRenderAux (n + 1) n

/-- Left-pad a character list with `'0'` up to width `w`
(Python zero-padding of a numeric field). -/
def padZeros (w : Nat) (l : List Char) : List Char :=
  List.replicate (w - l.length) '0' ++ l

/-- Python `f"{x:0wd}"`: zero-pad to total width `w`; for negative values the
sign counts toward the width and precedes the padding. -/
def pyFmtZeroPad (w : Nat) (x : Int) : List Char :=
  if x < 0 then '-' :: padZeros (w - 1) (decRender x.natAbs)
  else padZeros w (decRender x.toNat)

/-- Accumulating decimal parser: processes characters left to right,
failing on the first non-digit. -/
def decParseAcc (a : Nat) : List Char → Option Nat
  | [] => some a
  | c :: cs =>
    match digitVal? c with
    | some d => decParseAcc (a * 10 + d) cs
    | none => none

/-- Python `int(s)` restricted to the inputs that occur in this service:
nonempty all-digit strings (period components are `\d{4}` and `\d{2}` by the
`LotteryCreate` schema pattern).  Returns `none` where Python would raise
`ValueError`. -/
def decParse? (l : List Char) : Option Nat :=
  match l with
  | [] => none
  | c :: cs => decParseAcc 0 (c :: cs)

/-- Python `s.split('-')` on the underlying character list. -/
def splitDash : List Char → List (List Char)
  | [] => [[]]
  | c :: cs =>
    if c = '-' then [] :: splitDash cs
    else
      match splitDash cs with
      | [] => [[c]]
      | g :: gs => (c :: g) :: gs

/-! ### Data model

Embeds `app/modules/solicitudes/models.py` (`Request`),
`app/modules/residentes/models.py` (`User`) and
`app/modules/sorteo/models.py` (`LotteryParticipantResult`, `LotteryResult`).
Pydantic `Optional[str]` fields become `Option String`; `datetime` fields are
opaque `Nat` ticks; the `vehicle_slots` dict of `User` is not read anywhere in
the lottery service and is omitted. -/

/-- Python literal values `"automovil" | "motocicleta"` of `vehicle_type`. -/
inductive VehicleType
  | automovil
  | motocicleta
deriving DecidableEq, Repr

/-- The string Python stores for a `VehicleType` literal. -/
def vtStr : VehicleType → String
  | VehicleType.automovil => "automovil"
  | VehicleType.motocicleta => "motocicleta"

/-- Python literal values of `Request.status`. -/
inductive RequestStatus
  | pending
  | accepted
  | rejected
deriving DecidableEq, Repr

/-- Python literal values of `User.role`. -/
inductive UserRole
  | residente
  | administrador
deriving DecidableEq, Repr

/-- Python literal values of `User.status`. -/
inductive UserStatus
  | pending_approval
  | active
  | inactive
deriving DecidableEq, Repr

/-- Model `Request` of `app/modules/solicitudes/models.py`. -/
structure Request where
  id : Option String
  user_id : String
  resident_cc : String
  resident_full_name : String
  vehicle_type : VehicleType
  license_plate : String
  description : Option String
  disability : Bool
  pay : Bool
  status : RequestStatus
  lottery_period : String
  created_at : Nat
  updated_at : Nat
deriving DecidableEq, Repr

/-- Model `User` of `app/modules/residentes/models.py`
(without the `vehicle_slots` dict, which the lottery service never reads). -/
structure User where
  id : Option String
  full_name : String
  cc : String
  email : String
  hashed_password : String
  apartment : String
  phone_number : String
  role : UserRole
  status : UserStatus
deriving DecidableEq, Repr

/-- Model `LotteryParticipantResult` of `app/modules/sorteo/models.py`. -/
structure LotteryParticipantResult where
  user_id : String
  cc : String
  full_name : String
  apartment : String
  vehicle_type : VehicleType
  license_plate : String
  spot : Option String
  request_id : String
deriving DecidableEq, Repr

/-- Model `LotteryResult` of `app/modules/sorteo/models.py`. -/
structure LotteryResult where
  id : Option String
  period : String
  total_car_spots_offered : Nat
  total_moto_spots_offered : Nat
  winners : List LotteryParticipantResult
  non_winners : List LotteryParticipantResult
  executed_at : Nat
deriving DecidableEq, Repr

/-- Schema `LotteryCreate` of `app/modules/sorteo/schemas.py`; the schema
validates `num_car_spots ≥ 0` and `num_moto_spots ≥ 0`, hence `Nat`. -/
structure LotteryCreate where
  period : String
  num_car_spots : Nat
  num_moto_spots : Nat
deriving DecidableEq, Repr

/-- Python `str(x)` applied to an `Optional[str]` value
(`str(None)` is the string `"None"`). -/
def pyStr : Option String → String
  | some s => s
  | none => "None"

/-! ### Repository state

The three MongoDB collections the service touches, as lists in insertion
order; `BaseRepository.find_one` is first-match, `create` appends, and
`BaseRepository.get` on the users collection is a pure lookup modelled by the
`users` map (returning `none` both for a missing document and for an invalid
ObjectId string, as the Python `get` does). -/

structure Env where
  lotteries : List LotteryResult
  requests : List Request
  users : String → Option User

/-- Repository call `lottery_repository.find_one({"period": period})`. -/
def find_one_lottery (store : List LotteryResult) (period : String) :
    Option LotteryResult :=
  store.find? (fun L => L.period == period)

/-- Repository call
`request_repository.find_many({"lottery_period": p, "status": "accepted"}, limit=1000)`:
all matching documents in insertion order, capped at the first 1000. -/
def loadAccepted (env : Env) (period : String) : List Request :=
  (env.requests.filter
    (fun r => r.lottery_period == period && r.status == RequestStatus.accepted)).take 1000

/-! ### The lottery service helpers (`app/modules/sorteo/service.py`) -/

/-- Helper `_get_previous_period_non_winners`: parse `current_period` as
`YYYY-MM`, roll back one month (January rolls to December of the previous
year), find the lottery stored for that previous period and return the
`user_id`s of its non-winners, or `[]` when there is none.  Returns `none`
where the Python code would raise `ValueError` (period not of the
two-component numeric shape). -/
def get_previous_period_non_winners (store : List LotteryResult)
    (current_period : String) : Option (List String) :=
  match splitDash current_period.data with
  | [a, b] =>
    match decParse? a, decParse? b with
    | some year, some month =>
      let p : Int × Int :=
        if month = 1 then ((year : Int) - 1, 12) else ((year : Int), (month : Int) - 1)
      let previous_period : String :=
        String.mk (pyFmtZeroPad 4 p.1 ++ '-' :: pyFmtZeroPad 2 p.2)
      match find_one_lottery store previous_period with
      | some previous_lottery =>
        if previous_lottery.non_winners.isEmpty then some []
        else some (previous_lottery.non_winners.map (fun p => p.user_id))
      | none => some []
    | _, _ => none
  | _ => none

/-- Helper `_generate_spots`: the dict `{"automovil": car_spots,
"motocicleta": moto_spots}` with identifiers `C-01, C-02, ...` and
`M-01, M-02, ...`, modelled as the pair (car list, moto list). -/
def generate_spots (num_car_spots num_moto_spots : Nat) :
    List String × List String :=
  ((List.range num_car_spots).map
      (fun i : Nat => String.mk ('C' :: '-' :: pyFmtZeroPad 2 ((i : Int) + 1))),
   (List.range num_moto_spots).map
      (fun i : Nat => String.mk ('M' :: '-' :: pyFmtZeroPad 2 ((i : Int) + 1))))

/-! ### Candidates and scoring -/

/-- One entry of `requests_with_user_info`: the request together with the
resident snapshot looked up from the users collection (the mutable
`priority_score` slot is recomputed by `priority_score` below). -/
structure Candidate where
  request : Request
  user : User
deriving DecidableEq, Repr

/-- The candidate-building loop of `execute_lottery` (lines 94-109): for each
accepted request look up its user; a request whose user cannot be found is
logged and skipped.  The `user_cache` dict is semantically transparent because
the lookup is pure. -/
def buildCandidates (users : String → Option User) (reqs : List Request) :
    List Candidate :=
  reqs.filterMap (fun r => (users r.user_id).map (fun u => { request := r, user := u }))

/-- The scoring loop of `execute_lottery` (lines 111-119): start from 0, add
1000 for a disability flag, 500 when `str(user.id)` is among the previous
period's non-winner ids, and 100 for a paid-dues flag. -/
def priority_score (previous_non_winners_ids : List String) (c : Candidate) : Nat :=
  let s : Nat := 0
  let s := if c.request.disability then s + 1000 else s
  let s := if pyStr c.user.id ∈ previous_non_winners_ids then s + 500 else s
  if c.request.pay then s + 100 else s

/-! ### Ordering: stable sort descending by score, then shuffle each tier -/

/-- Insert into a descending-sorted list, after any element of equal key
(the stable position). -/
def insertDesc (f : α → Nat) (c : α) : List α → List α
  | [] => [c]
  | d :: ds => if f d ≤ f c then c :: d :: ds else d :: insertDesc f c ds

/-- Python `list.sort(key=..., reverse=True)`: a stable descending sort. -/
def sortDesc (f : α → Nat) : List α → List α
  | [] => []
  | c :: cs => insertDesc f c (sortDesc f cs)

/-- Python `itertools.groupby(l, key=f)`: split into maximal runs of
consecutive elements with equal key (built by structural recursion from the
right; the guard keeps an element in the current run exactly when its key
equals the key of the run it is prepended to, which on runs of equal keys is
the `groupby` grouping). -/
def groupRuns (f : α → Nat) : List α → List (List α)
  | [] => []
  | c :: cs =>
    match groupRuns f cs with
    | [] => [[c]]
    | g :: gs =>
      match g with
      | [] => [c] :: gs
      | d :: t => if f c == f d then (c :: d :: t) :: gs else [c] :: (d :: t) :: gs

/-- Apply the shuffle oracle to each group in order; the oracle receives the
position of the group so that distinct `random.shuffle` calls of one run are
modelled independently. -/
def shuffleGroups (sh : Nat → List α → List α) : Nat → List (List α) → List (List α)
  | _, [] => []
  | i, g :: gs => sh i g :: shuffleGroups sh (i + 1) gs

/-- The ordering phase of `execute_lottery` (lines 121-128): sort by score
descending, group consecutive equal scores, shuffle inside each group and
concatenate. -/
def orderCandidates (sh : Nat → List Candidate → List Candidate)
    (boost : List String) (cands : List Candidate) : List Candidate :=
  (shuffleGroups sh 0 (groupRuns (priority_score boost) (sortDesc (priority_score boost) cands))).flatten

/-! ### The assignment walk (lines 134-183) -/

/-- Python f-string `f"{str(user.id)}_{req.vehicle_type}"`. -/
def assignKey (uid : String) (vt : VehicleType) : String :=
  uid ++ "_" ++ vtStr vt

/-- The assignment key of a candidate. -/
def candKey (c : Candidate) : String :=
  assignKey (pyStr c.user.id) c.request.vehicle_type

/-- Build a `LotteryParticipantResult` from a candidate, exactly as the three
append sites of the walk do. -/
def mkParticipant (c : Candidate) (spot : Option String) : LotteryParticipantResult :=
  { user_id := pyStr c.user.id
    cc := c.user.cc
    full_name := c.user.full_name
    apartment := c.user.apartment
    vehicle_type := c.request.vehicle_type
    license_plate := c.request.license_plate
    spot := spot
    request_id := pyStr c.request.id }

/-- The mutable locals of the assignment walk: the two depleting spot lists,
the two result lists, and the `assigned_users_and_vehicle_types` set
(modelled as a list with membership). -/
structure AllocState where
  car_spots : List String
  moto_spots : List String
  winners : List LotteryParticipantResult
  non_winners : List LotteryParticipantResult
  assigned : List String
deriving DecidableEq, Repr

/-- One iteration of the walk: an already-assigned `(user, vehicle)` key is
recorded as a non-winner; otherwise the front spot of the matching category is
popped if available (winner, key marked assigned), else a non-winner with
null spot is recorded. -/
def allocStep (s : AllocState) (c : Candidate) : AllocState :=
  if candKey c ∈ s.assigned then
    { s with non_winners := s.non_winners ++ [mkParticipant c none] }
  else if c.request.vehicle_type = VehicleType.automovil ∧ s.car_spots ≠ [] then
    { car_spots := s.car_spots.tail
      moto_spots := s.moto_spots
      winners := s.winners ++ [mkParticipant c (s.car_spots.head?)]
      non_winners := s.non_winners
      assigned := candKey c :: s.assigned }
  else if c.request.vehicle_type = VehicleType.motocicleta ∧ s.moto_spots ≠ [] then
    { car_spots := s.car_spots
      moto_spots := s.moto_spots.tail
      winners := s.winners ++ [mkParticipant c (s.moto_spots.head?)]
      non_winners := s.non_winners
      assigned := candKey c :: s.assigned }
  else
    { s with non_winners := s.non_winners ++ [mkParticipant c none] }

/-- The walk over the final ordered candidate list. -/
def allocLoop : List Candidate → AllocState → AllocState
  | [], s => s
  | c :: cs, s => allocLoop cs (allocStep s c)

/-- Run the walk from the freshly generated spot inventories. -/
def runAllocation (cands : List Candidate) (car moto : List String) : AllocState :=
  allocLoop cands
    { car_spots := car, moto_spots := moto, winners := [], non_winners := [], assigned := [] }

/-! ### The public operation `execute_lottery` -/

/-- Errors `execute_lottery` can raise: an `HTTPException(status, detail)` or
an unhandled `ValueError` from `int(...)` on a malformed period. -/
inductive PyError
  | http (status : Nat) (detail : String)
  | valueError
deriving DecidableEq, Repr

instance {ε α : Type} [DecidableEq ε] [DecidableEq α] : DecidableEq (Except ε α)
  | Except.ok x, Except.ok y =>
    if h : x = y then Decidable.isTrue (h ▸ rfl)
    else Decidable.isFalse (fun hc => h (Except.ok.inj hc))
  | Except.ok _, Except.error _ => Decidable.isFalse (fun hc => Except.noConfusion hc)
  | Except.error _, Except.ok _ => Decidable.isFalse (fun hc => Except.noConfusion hc)
  | Except.error e, Except.error f =>
    if h : e = f then Decidable.isTrue (h ▸ rfl)
    else Decidable.isFalse (fun hc => h (Except.error.inj hc))

/-- Embedding of `LotteryService.execute_lottery`.  Inputs beyond the service
state and payload: the shuffle oracle `sh`, the execution timestamp `now`
(value of `datetime.utcnow()`), and the storage-generated id `newId` the
repository assigns on insert.  Returns the Python return-or-raise outcome
together with the lotteries collection after the call (notification dispatch
sends emails only and does not touch the modelled state). -/
def execute_lottery (env : Env) (lottery_data : LotteryCreate)
    (sh : Nat → List Candidate → List Candidate) (now : Nat) (newId : String) :
    Except PyError LotteryResult × List LotteryResult :=
  match find_one_lottery env.lotteries lottery_data.period with
  | some existing_lottery =>
    (Except.error (PyError.http 409
        ("Ya se ha ejecutado un sorteo para el período " ++ lottery_data.period ++
          ". ID: " ++ pyStr existing_lottery.id)),
     env.lotteries)
  | none =>
    let accepted_requests := loadAccepted env lottery_data.period
    if accepted_requests.isEmpty then
      let new_lottery_result : LotteryResult :=
        { id := some newId
          period := lottery_data.period
          total_car_spots_offered := lottery_data.num_car_spots
          total_moto_spots_offered := lottery_data.num_moto_spots
          winners := []
          non_winners := []
          executed_at := now }
      (Except.ok new_lottery_result, env.lotteries ++ [new_lottery_result])
    else
      match get_previous_period_non_winners env.lotteries lottery_data.period with
      | none => (Except.error PyError.valueError, env.lotteries)
      | some previous_non_winners_ids =>
        let requests_with_user_info := buildCandidates env.users accepted_requests
        let final_sorted_requests :=
          orderCandidates sh previous_non_winners_ids requests_with_user_info
        let available_spots :=
          generate_spots lottery_data.num_car_spots lottery_data.num_moto_spots
        let st := runAllocation final_sorted_requests available_spots.1 available_spots.2
        let new_lottery_result : LotteryResult :=
          { id := some newId
            period := lottery_data.period
            total_car_spots_offered := lottery_data.num_car_spots
            total_moto_spots_offered := lottery_data.num_moto_spots
            winners := st.winners
            non_winners := st.non_winners
            executed_at := now }
        (Except.ok new_lottery_result, env.lotteries ++ [new_lottery_result])

/-! ### Period strings and the carry-forward resolver -/

/-- The canonical `YYYY-MM` string for a year and a month, exactly the shape
`f"{year:04d}-{month:02d}"` produces for non-negative components; every string
matching the schema pattern `^\d{4}-\d{2}$` is `fmtPeriod y m` for a unique
`y ≤ 9999` and `m ≤ 99`. -/
def fmtPeriod (y m : Nat) : String :=
  String.mk (pyFmtZeroPad 4 (y : Int) ++ '-' :: pyFmtZeroPad 2 (m : Int))

/-- The resident ids stored in the non-winner list of the lottery recorded for
`period`, or `[]` when no lottery is stored for it. -/
def storedNonWinnerIds (store : List LotteryResult) (period : String) : List String :=
  match find_one_lottery store period with
  | some L => L.non_winners.map (fun p => p.user_id)
  | none => []

/-! ### Allocation-walk invariants -/

/-- Whether a recorded participant belongs to the car category. -/
def isCar (p : LotteryParticipantResult) : Bool :=
  p.vehicle_type == VehicleType.automovil

/-- The spot ids assigned to car-category winners, in recording order. -/
def carAssigned (w : List LotteryParticipantResult) : List String :=
  (w.filter isCar).filterMap (fun p => p.spot)

/-- The spot ids assigned to motorcycle-category winners, in recording order. -/
def motoAssigned (w : List LotteryParticipantResult) : List String :=
  (w.filter (fun p => ! isCar p)).filterMap (fun p => p.spot)

/-- The assignment keys of a list of recorded participants. -/
def winKeys (w : List LotteryParticipantResult) : List String :=
  w.map (fun p => assignKey p.user_id p.vehicle_type)

/-- The spot list of the state for a given category. -/
def spotsFor (s : AllocState) : VehicleType → List String
  | VehicleType.automovil => s.car_spots
  | VehicleType.motocicleta => s.moto_spots

/-- The walk invariant: the remaining spot lists are suffixes of the generated
inventories whose consumed prefixes are exactly the spots recorded on winners
of the matching category; winners carry a spot, non-winners never do; the
`assigned` set is exactly the winners' key set, and winners' keys are
pairwise distinct. -/
structure AllocInv (car0 moto0 : List String) (s : AllocState) : Prop where
  car : ∃ kc, s.car_spots = car0.drop kc ∧ carAssigned s.winners = car0.take kc
  moto : ∃ km, s.moto_spots = moto0.drop km ∧ motoAssigned s.winners = moto0.take km
  win_spots : ∀ p ∈ s.winners, p.spot.isSome
  lose_spots : ∀ p ∈ s.non_winners, p.spot = none
  assigned_iff : ∀ k, k ∈ s.assigned ↔ k ∈ winKeys s.winners
  keys_nodup : (winKeys s.winners).Nodup

/-! ### Branch equations of `execute_lottery` -/

/-- The record persisted on the empty-candidate early return (lines 81-91). -/
def emptyResultOf (d : LotteryCreate) (now : Nat) (newId : String) : LotteryResult :=
  { id := some newId
    period := d.period
    total_car_spots_offered := d.num_car_spots
    total_moto_spots_offered := d.num_moto_spots
    winners := []
    non_winners := []
    executed_at := now }

/-- The record persisted on the full run (lines 185-194), written in terms of
the phase functions. -/
def runResultOf (env : Env) (d : LotteryCreate)
    (sh : Nat → List Candidate → List Candidate) (now : Nat) (newId : String)
    (boost : List String) : LotteryResult :=
  { id := some newId
    period := d.period
    total_car_spots_offered := d.num_car_spots
    total_moto_spots_offered := d.num_moto_spots
    winners := (runAllocation
        (orderCandidates sh boost (buildCandidates env.users (loadAccepted env d.period)))
        (generate_spots d.num_car_spots d.num_moto_spots).1
        (generate_spots d.num_car_spots d.num_moto_spots).2).winners
    non_winners := (runAllocation
        (orderCandidates sh boost (buildCandidates env.users (loadAccepted env d.period)))
        (generate_spots d.num_car_spots d.num_moto_spots).1
        (generate_spots d.num_car_spots d.num_moto_spots).2).non_winners
    executed_at := now }

/-- The spot count offered for a category. -/
def spotCountFor (d : LotteryCreate) : VehicleType → Nat
  | VehicleType.automovil => d.num_car_spots
  | VehicleType.motocicleta => d.num_moto_spots

/-! ### Concrete demonstration data -/

/-- The identity shuffle: a legitimate outcome of `random.shuffle`. -/
def shId : Nat → List Candidate → List Candidate := fun _ g => g

def demoUser1 : User :=
  { id := some "u1", full_name := "Ana", cc := "100200", email := "ana@x.co"
    hashed_password := "h", apartment := "T1-101", phone_number := "3000000"
    role := UserRole.residente, status := UserStatus.active }

def demoUser2 : User := { demoUser1 with id := some "u2", cc := "100201" }

def demoReq1 : Request :=
  { id := some "r1", user_id := "u1", resident_cc := "100200"
    resident_full_name := "Ana", vehicle_type := VehicleType.automovil
    license_plate := "AAA11", description := none, disability := false
    pay := true, status := RequestStatus.accepted, lottery_period := "2025-07"
    created_at := 0, updated_at := 0 }

def demoReq2 : Request :=
  { demoReq1 with id := some "r2", user_id := "u2", disability := true, pay := false }

def demoUsers : String → Option User := fun uid =>
  if uid = "u1" then some demoUser1 else if uid = "u2" then some demoUser2 else none

def demoEnv : Env :=
  { lotteries := [], requests := [demoReq1, demoReq2], users := demoUsers }

def demoData : LotteryCreate :=
  { period := "2025-07", num_car_spots := 1, num_moto_spots := 0 }

def demoRes : LotteryResult :=
  ((execute_lottery demoEnv demoData shId 0 "L1").1).toOption.getD
    (emptyResultOf demoData 0 "L1")

/-- A duplicate accepted request: same resident, same category as `demoReq1`. -/
def dupReq : Request := { demoReq1 with id := some "r1b" }

def dupEnv : Env :=
  { lotteries := [], requests := [demoReq1, dupReq], users := demoUsers }

def dupData1 : LotteryCreate :=
  { period := "2025-07", num_car_spots := 1, num_moto_spots := 0 }

def dupData2 : LotteryCreate :=
  { period := "2025-07", num_car_spots := 2, num_moto_spots := 0 }

def dupRes2 : LotteryResult :=
  ((execute_lottery dupEnv dupData2 shId 0 "L1").1).toOption.getD
    (emptyResultOf dupData2 0 "L1")

def c3Env : Env :=
  { lotteries := [emptyResultOf demoData 7 "L0"], requests := [], users := fun _ => none }

def c4wData : LotteryCreate :=
  { period := "2025-07", num_car_spots := 2, num_moto_spots := 0 }

def demoC4Res : LotteryResult :=
  ((execute_lottery demoEnv c4wData shId 0 "L1").1).toOption.getD
    (emptyResultOf c4wData 0 "L1")

def c5Participant : LotteryParticipantResult :=
  { user_id := "u1", cc := "100200", full_name := "Ana", apartment := "T1-101"
    vehicle_type := VehicleType.automovil, license_plate := "AAA11"
    spot := none, request_id := "r0" }

def c5Store : List LotteryResult :=
  [{ id := some "L0", period := "2024-12", total_car_spots_offered := 1
     total_moto_spots_offered := 0, winners := [], non_winners := [c5Participant]
     executed_at := 0 }]

def c6Env : Env :=
  { lotteries := [], requests := List.replicate 1001 demoReq1, users := demoUsers }

def c6Data : LotteryCreate :=
  { period := "2025-07", num_car_spots := 0, num_moto_spots := 0 }

def c9Env : Env := { lotteries := [], requests := [], users := fun _ => none }

def c9Data : LotteryCreate :=
  { period := "2025-07", num_car_spots := 5, num_moto_spots := 3 }

/-! #### Round-trip lemmas for the decimal helpers -/

theorem digitVal?_charOfDigit {d : Nat} (h : d < 10) :
    digitVal? (charOfDigit d) = some d := by
  interval_cases d <;> decide

theorem decRenderAux_ne_nil {fuel n : Nat} (h : n < fuel) : decRenderAux fuel n ≠ [] := by
  cases fuel with
  | zero => omega
  | succ fuel =>
    unfold decRenderAux
    split <;> simp

theorem decRender_ne_nil (n : Nat) : decRender n ≠ [] :=
  decRenderAux_ne_nil (Nat.lt_succ_self n)

theorem decRenderAux_digits :
    ∀ (fuel n : Nat), n < fuel → ∀ c ∈ decRenderAux fuel n, (digitVal? c).isSome := by
  intro fuel
  induction fuel with
  | zero => intro n h; omega
  | succ fuel ih =>
    intro n h c hc
    unfold decRenderAux at hc
    by_cases h10 : n < 10
    · rw [if_pos h10] at hc
      simp only [List.mem_singleton] at hc
      subst hc
      rw [digitVal?_charOfDigit (by omega)]
      rfl
    · rw [if_neg h10] at hc
      rcases List.mem_append.mp hc with h1 | h2
      · have hdiv : n / 10 < fuel := by
          have := Nat.div_lt_self (by omega : 0 < n) (by decide : 1 < 10)
          omega
        exact ih (n / 10) hdiv c h1
      · simp only [List.mem_singleton] at h2
        subst h2
        rw [digitVal?_charOfDigit (Nat.mod_lt _ (by decide))]
        rfl

theorem decRender_digits (n : Nat) : ∀ c ∈ decRender n, (digitVal? c).isSome :=
  decRenderAux_digits (n + 1) n (Nat.lt_succ_self n)

theorem decParseAcc_append (a : Nat) (l₁ l₂ : List Char) :
    decParseAcc a (l₁ ++ l₂) =
      match decParseAcc a l₁ with
      | some b => decParseAcc b l₂
      | none => none := by
  induction l₁ generalizing a with
  | nil => rfl
  | cons c cs ih =>
    simp only [List.cons_append, decParseAcc]
    match digitVal? c with
    | some d => exact ih (a * 10 + d)
    | none => rfl

theorem decRenderAux_fuel_irrel :
    ∀ (f₁ f₂ n : Nat), n < f₁ → n < f₂ → decRenderAux f₁ n = decRenderAux f₂ n := by
  intro f₁
  induction f₁ with
  | zero => intro f₂ n h; omega
  | succ f₁ ih =>
    intro f₂ n h1 h2
    cases f₂ with
    | zero => omega
    | succ f₂ =>
      unfold decRenderAux
      by_cases h10 : n < 10
      · rw [if_pos h10, if_pos h10]
      · rw [if_neg h10, if_neg h10]
        have hdiv1 : n / 10 < f₁ := by
          have := Nat.div_lt_self (by omega : 0 < n) (by decide : 1 < 10)
          omega
        have hdiv2 : n / 10 < f₂ := by
          have := Nat.div_lt_self (by omega : 0 < n) (by decide : 1 < 10)
          omega
        rw [ih f₂ (n / 10) hdiv1 hdiv2]

theorem decParseAcc_decRenderAux :
    ∀ (fuel n : Nat), n < fuel → ∀ a,
      decParseAcc a (decRenderAux fuel n)
        = some (a * 10 ^ (decRenderAux fuel n).length + n) := by
  intro fuel
  induction fuel with
  | zero => intro n h; omega
  | succ fuel ih =>
    intro n h a
    unfold decRenderAux
    by_cases h10 : n < 10
    · rw [if_pos h10]
      simp only [decParseAcc, digitVal?_charOfDigit h10, List.length_singleton, Nat.pow_one]
    · rw [if_neg h10]
      have hdiv : n / 10 < fuel := by
        have := Nat.div_lt_self (by omega : 0 < n) (by decide : 1 < 10)
        omega
      rw [decParseAcc_append]
      rw [ih (n / 10) hdiv a]
      simp only [decParseAcc, digitVal?_charOfDigit (Nat.mod_lt _ (by decide))]
      have hlen : ((decRenderAux fuel (n / 10)) ++ [charOfDigit (n % 10)]).length
          = (decRenderAux fuel (n / 10)).length + 1 := by simp
      rw [hlen]
      have : (a * 10 ^ (decRenderAux fuel (n / 10)).length + n / 10) * 10 + n % 10
          = a * 10 ^ ((decRenderAux fuel (n / 10)).length + 1) + n := by
        rw [Nat.pow_succ]
        have := Nat.div_add_mod n 10
        ring_nf
        omega
      rw [this]

theorem decParseAcc_decRender (n : Nat) :
    ∀ a, decParseAcc a (decRender n) = some (a * 10 ^ (decRender n).length + n) :=
  decParseAcc_decRenderAux (n + 1) n (Nat.lt_succ_self n)

theorem decParse?_decRender (n : Nat) : decParse? (decRender n) = some n := by
  have h := decParseAcc_decRender n 0
  simp only [Nat.zero_mul, Nat.zero_add] at h
  cases hm : decRender n with
  | nil => exact absurd hm (decRender_ne_nil n)
  | cons c cs =>
    rw [hm] at h
    simpa [decParse?] using h

theorem digitVal?_zero : digitVal? '0' = some 0 := by decide

theorem decParseAcc_zeros (k : Nat) (l : List Char) :
    decParseAcc 0 (List.replicate k '0' ++ l) = decParseAcc 0 l := by
  induction k with
  | zero => rfl
  | succ k ih => simpa [List.replicate_succ, decParseAcc, digitVal?_zero] using ih

theorem decParse?_padZeros (w : Nat) (n : Nat) :
    decParse? (padZeros w (decRender n)) = some n := by
  have key : decParseAcc 0 (padZeros w (decRender n)) = some n := by
    unfold padZeros
    rw [decParseAcc_zeros]
    have h := decParseAcc_decRender n 0
    simpa using h
  cases hm : padZeros w (decRender n) with
  | nil =>
    exfalso
    unfold padZeros at hm
    exact decRender_ne_nil n (List.append_eq_nil.mp hm).2
  | cons c cs =>
    rw [hm] at key
    simpa [decParse?] using key

theorem decParse?_pyFmtZeroPad (w : Nat) (x : Int) (hx : 0 ≤ x) :
    decParse? (pyFmtZeroPad w x) = some x.toNat := by
  unfold pyFmtZeroPad
  rw [if_neg (by omega)]
  exact decParse?_padZeros w x.toNat

theorem pyFmtZeroPad_inj {w : Nat} {x y : Int} (hx : 0 ≤ x) (hy : 0 ≤ y)
    (h : pyFmtZeroPad w x = pyFmtZeroPad w y) : x = y := by
  have h1 := decParse?_pyFmtZeroPad w x hx
  have h2 := decParse?_pyFmtZeroPad w y hy
  rw [h] at h1
  rw [h1] at h2
  have : x.toNat = y.toNat := by injection h2
  omega

theorem pyFmtZeroPad_digits (w : Nat) (x : Int) (hx : 0 ≤ x) :
    ∀ c ∈ pyFmtZeroPad w x, (digitVal? c).isSome := by
  unfold pyFmtZeroPad
  rw [if_neg (by omega)]
  intro c hc
  rcases List.mem_append.mp hc with h1 | h2
  · have := List.eq_of_mem_replicate h1
    subst this
    rfl
  · exact decRender_digits _ c h2

theorem splitDash_no_dash {l : List Char} (h : '-' ∉ l) : splitDash l = [l] := by
  induction l with
  | nil => rfl
  | cons c cs ih =>
    have hc : ¬ c = '-' := fun hc => h (hc ▸ List.mem_cons_self c cs)
    have hcs : '-' ∉ cs := fun hm => h (List.mem_cons_of_mem c hm)
    simp only [splitDash, if_neg hc, ih hcs]

theorem splitDash_append {a b : List Char} (ha : '-' ∉ a) :
    splitDash (a ++ '-' :: b) = a :: splitDash b := by
  induction a with
  | nil => simp [splitDash]
  | cons c cs ih =>
    have hc : ¬ c = '-' := fun hc => ha (hc ▸ List.mem_cons_self c cs)
    have hcs : '-' ∉ cs := fun hm => ha (List.mem_cons_of_mem c hm)
    simp only [List.cons_append, splitDash, if_neg hc, List.append_eq, ih hcs]

theorem no_dash_of_digits {l : List Char} (h : ∀ c ∈ l, (digitVal? c).isSome) :
    '-' ∉ l := by
  intro hm
  have := h '-' hm
  rw [show digitVal? '-' = none from by decide] at this
  simp at this

/-- On any well-formed `YYYY-MM` period with a real month and a positive year,
`_get_previous_period_non_winners` returns (without failing) exactly the
resident ids of the non-winners stored for the immediately prior calendar
month, rolling January back to December of the previous year. -/
theorem get_previous_period_non_winners_eq (store : List LotteryResult)
    (y m : Nat) (hy : 1 ≤ y) (hm1 : 1 ≤ m) (hm2 : m ≤ 12) :
    get_previous_period_non_winners store (fmtPeriod y m) =
      some (storedNonWinnerIds store
        (if m = 1 then fmtPeriod (y - 1) 12 else fmtPeriod y (m - 1))) := by
  have hya : (0 : Int) ≤ (y : Int) := by omega
  have hma : (0 : Int) ≤ (m : Int) := by omega
  have hsplit : splitDash (fmtPeriod y m).data
      = [pyFmtZeroPad 4 (y : Int), pyFmtZeroPad 2 (m : Int)] := by
    have h1 : '-' ∉ pyFmtZeroPad 4 (y : Int) :=
      no_dash_of_digits (pyFmtZeroPad_digits 4 _ hya)
    have h2 : '-' ∉ pyFmtZeroPad 2 (m : Int) :=
      no_dash_of_digits (pyFmtZeroPad_digits 2 _ hma)
    show splitDash (pyFmtZeroPad 4 (y : Int) ++ '-' :: pyFmtZeroPad 2 (m : Int))
        = _
    rw [splitDash_append h1, splitDash_no_dash h2]
  have hfmt : ∀ (a b : Int) (a' b' : Nat), a = (a' : Int) → b = (b' : Int) →
      String.mk (pyFmtZeroPad 4 a ++ '-' :: pyFmtZeroPad 2 b) = fmtPeriod a' b' := by
    intro a b a' b' ha hb
    rw [ha, hb]
    rfl
  unfold get_previous_period_non_winners
  rw [hsplit]
  simp only [decParse?_pyFmtZeroPad 4 _ hya, decParse?_pyFmtZeroPad 2 _ hma,
    Int.toNat_ofNat]
  by_cases hm : m = 1
  · simp only [if_pos hm]
    rw [hfmt ((y : Int) - 1) 12 (y - 1) 12 (by omega) (by omega)]
    unfold storedNonWinnerIds
    cases hfind : find_one_lottery store (fmtPeriod (y - 1) 12) with
    | none => rfl
    | some L =>
      by_cases hnw : L.non_winners.isEmpty
      · simp [List.isEmpty_iff.mp hnw]
      · simp [hnw]
  · simp only [if_neg hm]
    rw [hfmt (y : Int) ((m : Int) - 1) y (m - 1) rfl (by omega)]
    unfold storedNonWinnerIds
    cases hfind : find_one_lottery store (fmtPeriod y (m - 1)) with
    | none => rfl
    | some L =>
      by_cases hnw : L.non_winners.isEmpty
      · simp [List.isEmpty_iff.mp hnw]
      · simp [hnw]

/-! ### Spot generator lemmas -/

theorem generate_spots_lengths (nc nm : Nat) :
    (generate_spots nc nm).1.length = nc ∧ (generate_spots nc nm).2.length = nm := by
  constructor <;> simp only [generate_spots] <;> rw [List.length_map, List.length_range]

theorem spotId_inj (tag : Char) : Function.Injective
    (fun i : Nat => String.mk (tag :: '-' :: pyFmtZeroPad 2 ((i : Int) + 1))) := by
  intro i j h
  have hd : tag :: '-' :: pyFmtZeroPad 2 ((i : Int) + 1)
      = tag :: '-' :: pyFmtZeroPad 2 ((j : Int) + 1) := congrArg String.data h
  have hp : pyFmtZeroPad 2 ((i : Int) + 1) = pyFmtZeroPad 2 ((j : Int) + 1) := by
    injection hd with _ hd1
    injection hd1 with _ hd2
  have := pyFmtZeroPad_inj (by omega) (by omega) hp
  omega

theorem generate_spots_nodup (nc nm : Nat) :
    (generate_spots nc nm).1.Nodup ∧ (generate_spots nc nm).2.Nodup := by
  unfold generate_spots
  constructor
  · exact List.Nodup.map (spotId_inj 'C') (List.nodup_range nc)
  · exact List.Nodup.map (spotId_inj 'M') (List.nodup_range nm)

theorem generate_spots_head_car (nc nm : Nat) :
    ∀ s ∈ (generate_spots nc nm).1, s.data.head? = some 'C' := by
  intro s hs
  simp only [generate_spots, List.mem_map] at hs
  obtain ⟨i, _, rfl⟩ := hs
  rfl

theorem generate_spots_head_moto (nc nm : Nat) :
    ∀ s ∈ (generate_spots nc nm).2, s.data.head? = some 'M' := by
  intro s hs
  simp only [generate_spots, List.mem_map] at hs
  obtain ⟨i, _, rfl⟩ := hs
  rfl

theorem generate_spots_disjoint (nc nm : Nat) :
    ∀ s ∈ (generate_spots nc nm).1, s ∉ (generate_spots nc nm).2 := by
  intro s hs hm
  have h1 := generate_spots_head_car nc nm s hs
  have h2 := generate_spots_head_moto nc nm s hm
  rw [h1] at h2
  exact absurd h2 (by decide)

/-! ### Assignment-key injectivity

The walk keys a candidate by the string `f"{str(user.id)}_{req.vehicle_type}"`;
distinct `(resident id, vehicle category)` pairs always produce distinct keys
because the two category suffixes end in different characters. -/

theorem assignKey_inj {u₁ u₂ : String} {v₁ v₂ : VehicleType}
    (h : assignKey u₁ v₁ = assignKey u₂ v₂) : u₁ = u₂ ∧ v₁ = v₂ := by
  have hd : u₁.data ++ '_' :: (vtStr v₁).data = u₂.data ++ '_' :: (vtStr v₂).data := by
    have := congrArg String.data h
    simpa [assignKey, String.data_append] using this
  cases v₁ <;> cases v₂
  · refine ⟨?_, rfl⟩
    exact String.ext (List.append_cancel_right hd)
  · exfalso
    have := congrArg List.getLast? hd
    simp [List.getLast?_append, vtStr] at this
  · exfalso
    have := congrArg List.getLast? hd
    simp [List.getLast?_append, vtStr] at this
  · refine ⟨?_, rfl⟩
    exact String.ext (List.append_cancel_right hd)

/-! ### Ordering-phase lemmas: the final candidate list is a permutation of
the candidates, sorted by score in non-increasing order, for every admissible
shuffle oracle. -/

theorem insertDesc_perm (f : α → Nat) (c : α) (l : List α) :
    insertDesc f c l ~ c :: l := by
  induction l with
  | nil => exact List.Perm.refl _
  | cons d ds ih =>
    by_cases h : f d ≤ f c
    · simp only [insertDesc, if_pos h]
      exact List.Perm.refl _
    · simp only [insertDesc, if_neg h]
      exact (ih.cons d).trans (List.Perm.swap c d ds)

theorem sortDesc_perm (f : α → Nat) (l : List α) : sortDesc f l ~ l := by
  induction l with
  | nil => exact List.Perm.refl _
  | cons c cs ih => exact (insertDesc_perm f c _).trans (ih.cons c)

theorem insertDesc_pairwise (f : α → Nat) (c : α) {l : List α}
    (h : List.Pairwise (fun a b => f b ≤ f a) l) :
    List.Pairwise (fun a b => f b ≤ f a) (insertDesc f c l) := by
  induction l with
  | nil => simp [insertDesc]
  | cons d ds ih =>
    rcases List.pairwise_cons.mp h with ⟨hd, hds⟩
    by_cases hc : f d ≤ f c
    · simp only [insertDesc, if_pos hc]
      refine List.pairwise_cons.mpr ⟨?_, h⟩
      intro x hx
      rcases List.mem_cons.mp hx with rfl | hx
      · exact hc
      · exact le_trans (hd x hx) hc
    · simp only [insertDesc, if_neg hc]
      refine List.pairwise_cons.mpr ⟨?_, ih hds⟩
      intro x hx
      rcases List.mem_cons.mp ((insertDesc_perm f c ds).mem_iff.mp hx) with rfl | hx2
      · omega
      · exact hd x hx2

theorem sortDesc_pairwise (f : α → Nat) (l : List α) :
    List.Pairwise (fun a b => f b ≤ f a) (sortDesc f l) := by
  induction l with
  | nil => exact List.Pairwise.nil
  | cons c cs ih => exact insertDesc_pairwise f c ih

theorem groupRuns_spec (f : α → Nat) :
    ∀ l : List α,
      (groupRuns f l).flatten = l ∧
      (∀ g ∈ groupRuns f l, g ≠ []) ∧
      (∀ g ∈ groupRuns f l, ∀ a ∈ g, ∀ b ∈ g, f a = f b) := by
  intro l
  induction l with
  | nil =>
    refine ⟨rfl, ?_, ?_⟩ <;> intro g hg <;> exact absurd hg (List.not_mem_nil g)
  | cons c cs ih =>
    obtain ⟨ihf, ihne, ihconst⟩ := ih
    cases hg : groupRuns f cs with
    | nil =>
      have hcs : cs = [] := by rw [← ihf, hg]; rfl
      subst hcs
      simp only [groupRuns]
      refine ⟨rfl, ?_, ?_⟩
      · intro g hgm
        rw [List.mem_singleton.mp hgm]
        simp
      · intro g hgm a ha b hb
        rw [List.mem_singleton.mp hgm] at ha hb
        rw [List.mem_singleton.mp ha, List.mem_singleton.mp hb]
    | cons g gs =>
      have hgne : g ≠ [] := ihne g (by rw [hg]; exact List.mem_cons_self g gs)
      obtain ⟨d, t, rfl⟩ : ∃ d t, g = d :: t := by
        cases g with
        | nil => exact absurd rfl hgne
        | cons d t => exact ⟨d, t, rfl⟩
      have hflat : (d :: t) ++ gs.flatten = cs := by
        rw [← ihf, hg]
        rfl
      simp only [groupRuns, hg]
      by_cases hcd : f c = f d
      · rw [if_pos (beq_iff_eq.mpr hcd)]
        refine ⟨?_, ?_, ?_⟩
        · show (c :: d :: t) ++ gs.flatten = c :: cs
          rw [List.cons_append, hflat]
        · intro g' hg'
          rcases List.mem_cons.mp hg' with rfl | hmem
          · simp
          · exact ihne g' (by rw [hg]; exact List.mem_cons_of_mem _ hmem)
        · intro g' hg' a ha b hb
          rcases List.mem_cons.mp hg' with rfl | hmem
          · have hconst0 := ihconst (d :: t) (by rw [hg]; exact List.mem_cons_self _ _)
            have key : ∀ x ∈ c :: d :: t, f x = f d := by
              intro x hx
              rcases List.mem_cons.mp hx with rfl | hx2
              · exact hcd
              · exact hconst0 x hx2 d (List.mem_cons_self d t)
            rw [key a ha, key b hb]
          · exact ihconst g' (by rw [hg]; exact List.mem_cons_of_mem _ hmem) a ha b hb
      · rw [if_neg (fun hbeq => hcd (eq_of_beq hbeq))]
        refine ⟨?_, ?_, ?_⟩
        · show [c] ++ ((d :: t) ++ gs.flatten) = c :: cs
          rw [hflat]
          rfl
        · intro g' hg'
          rcases List.mem_cons.mp hg' with rfl | hmem
          · simp
          · exact ihne g' (by { rw [hg]; exact hmem })
        · intro g' hg' a ha b hb
          rcases List.mem_cons.mp hg' with rfl | hmem
          · rw [List.mem_singleton.mp ha, List.mem_singleton.mp hb]
          · exact ihconst g' (by { rw [hg]; exact hmem }) a ha b hb

theorem groupRuns_flatten (f : α → Nat) (l : List α) :
    (groupRuns f l).flatten = l := (groupRuns_spec f l).1

theorem groupRuns_const (f : α → Nat) (l : List α) :
    ∀ g ∈ groupRuns f l, ∀ a ∈ g, ∀ b ∈ g, f a = f b := (groupRuns_spec f l).2.2

theorem shuffleGroups_mem {sh : Nat → List α → List α} :
    ∀ {gs : List (List α)} {i : Nat} {g' : List α},
      g' ∈ shuffleGroups sh i gs → ∃ j g, g ∈ gs ∧ g' = sh j g := by
  intro gs
  induction gs with
  | nil => intro i g' h; simp [shuffleGroups] at h
  | cons g gs ih =>
    intro i g' h
    rcases List.mem_cons.mp h with rfl | h2
    · exact ⟨i, g, List.mem_cons_self g gs, rfl⟩
    · obtain ⟨j, g0, hg0, rfl⟩ := ih h2
      exact ⟨j, g0, List.mem_cons_of_mem g hg0, rfl⟩

theorem shuffleGroups_flatten_perm (sh : Nat → List α → List α)
    (hsh : ∀ i g, sh i g ~ g) :
    ∀ (gs : List (List α)) (i : Nat),
      (shuffleGroups sh i gs).flatten ~ gs.flatten := by
  intro gs
  induction gs with
  | nil => intro i; exact List.Perm.refl _
  | cons g gs ih =>
    intro i
    simp only [shuffleGroups, List.flatten_cons]
    exact (hsh i g).append (ih (i + 1))

theorem pairwise_of_const {f : α → Nat} {g : List α}
    (h : ∀ a ∈ g, ∀ b ∈ g, f a = f b) :
    List.Pairwise (fun a b => f b ≤ f a) g := by
  induction g with
  | nil => exact List.Pairwise.nil
  | cons a as ih =>
    refine List.pairwise_cons.mpr ⟨?_, ih ?_⟩
    · intro b hb
      exact le_of_eq (h a (List.mem_cons_self a as) b (List.mem_cons_of_mem a hb)).symm
    · intro x hx y hy
      exact h x (List.mem_cons_of_mem a hx) y (List.mem_cons_of_mem a hy)

theorem shuffleGroups_cross (sh : Nat → List α → List α)
    (hsh : ∀ i g, sh i g ~ g) (f : α → Nat) :
    ∀ (gs : List (List α)) (i : Nat),
      List.Pairwise (fun g h => ∀ a ∈ g, ∀ b ∈ h, f b ≤ f a) gs →
      List.Pairwise (fun g h => ∀ a ∈ g, ∀ b ∈ h, f b ≤ f a)
        (shuffleGroups sh i gs) := by
  intro gs
  induction gs with
  | nil => intro i _; exact List.Pairwise.nil
  | cons g gs ih =>
    intro i h
    rcases List.pairwise_cons.mp h with ⟨hg, hgs⟩
    refine List.pairwise_cons.mpr ⟨?_, ih (i + 1) hgs⟩
    intro h' hh' a ha b hb
    obtain ⟨j, g0, hg0, rfl⟩ := shuffleGroups_mem hh'
    exact hg g0 hg0 a ((hsh i g).mem_iff.mp ha) b ((hsh j g0).mem_iff.mp hb)

theorem orderCandidates_perm (sh : Nat → List Candidate → List Candidate)
    (hsh : ∀ i g, sh i g ~ g) (boost : List String) (cands : List Candidate) :
    orderCandidates sh boost cands ~ cands := by
  unfold orderCandidates
  refine (shuffleGroups_flatten_perm sh hsh _ 0).trans ?_
  rw [groupRuns_flatten]
  exact sortDesc_perm _ _

theorem orderCandidates_sorted (sh : Nat → List Candidate → List Candidate)
    (hsh : ∀ i g, sh i g ~ g) (boost : List String) (cands : List Candidate) :
    List.Pairwise
      (fun a b => priority_score boost b ≤ priority_score boost a)
      (orderCandidates sh boost cands) := by
  unfold orderCandidates
  have hsort := sortDesc_pairwise (priority_score boost) cands
  have hflat := groupRuns_flatten (priority_score boost) (sortDesc (priority_score boost) cands)
  have h := List.pairwise_flatten.mp (hflat ▸ hsort)
  apply List.pairwise_flatten.mpr
  constructor
  · intro g' hg'
    obtain ⟨j, g, hg, rfl⟩ := shuffleGroups_mem hg'
    exact pairwise_of_const (fun a ha b hb =>
      groupRuns_const _ _ g hg a ((hsh j g).mem_iff.mp ha) b ((hsh j g).mem_iff.mp hb))
  · exact shuffleGroups_cross sh hsh _ _ 0 h.2

theorem candKey_eq_iff (c₁ c₂ : Candidate) :
    candKey c₁ = candKey c₂ ↔
      (pyStr c₁.user.id = pyStr c₂.user.id ∧
        c₁.request.vehicle_type = c₂.request.vehicle_type) := by
  constructor
  · exact fun h => assignKey_inj h
  · rintro ⟨h1, h2⟩
    unfold candKey assignKey
    rw [h1, h2]

theorem winKeys_append (w : List LotteryParticipantResult) (p : LotteryParticipantResult) :
    winKeys (w ++ [p]) = winKeys w ++ [assignKey p.user_id p.vehicle_type] := by
  simp [winKeys]

theorem carAssigned_append (w : List LotteryParticipantResult) (p : LotteryParticipantResult) :
    carAssigned (w ++ [p])
      = carAssigned w ++ (if isCar p then p.spot.toList else []) := by
  by_cases h : isCar p <;> cases hs : p.spot <;>
    simp [carAssigned, List.filter_append, List.filterMap_append, List.filterMap_cons,
      h, hs, Option.toList]

theorem motoAssigned_append (w : List LotteryParticipantResult) (p : LotteryParticipantResult) :
    motoAssigned (w ++ [p])
      = motoAssigned w ++ (if isCar p then [] else p.spot.toList) := by
  by_cases h : isCar p <;> cases hs : p.spot <;>
    simp [motoAssigned, List.filter_append, List.filterMap_append, List.filterMap_cons,
      h, hs, Option.toList]

/-- The four branch shapes of one iteration of the walk. -/
theorem allocStep_dup {s : AllocState} {c : Candidate} (h : candKey c ∈ s.assigned) :
    allocStep s c = { s with non_winners := s.non_winners ++ [mkParticipant c none] } := by
  unfold allocStep
  rw [if_pos h]

theorem allocStep_win_car {s : AllocState} {c : Candidate} (h : candKey c ∉ s.assigned)
    (hv : c.request.vehicle_type = VehicleType.automovil) (hc : s.car_spots ≠ []) :
    allocStep s c =
      { car_spots := s.car_spots.tail
        moto_spots := s.moto_spots
        winners := s.winners ++ [mkParticipant c s.car_spots.head?]
        non_winners := s.non_winners
        assigned := candKey c :: s.assigned } := by
  unfold allocStep
  rw [if_neg h, if_pos ⟨hv, hc⟩]

theorem allocStep_win_moto {s : AllocState} {c : Candidate} (h : candKey c ∉ s.assigned)
    (hv : c.request.vehicle_type = VehicleType.motocicleta) (hm : s.moto_spots ≠ []) :
    allocStep s c =
      { car_spots := s.car_spots
        moto_spots := s.moto_spots.tail
        winners := s.winners ++ [mkParticipant c s.moto_spots.head?]
        non_winners := s.non_winners
        assigned := candKey c :: s.assigned } := by
  unfold allocStep
  rw [if_neg h, if_neg (fun hand => by rw [hv] at hand; exact absurd hand.1 (by decide)),
    if_pos ⟨hv, hm⟩]

theorem allocStep_lose {s : AllocState} {c : Candidate} (h : candKey c ∉ s.assigned)
    (h1 : ¬(c.request.vehicle_type = VehicleType.automovil ∧ s.car_spots ≠ []))
    (h2 : ¬(c.request.vehicle_type = VehicleType.motocicleta ∧ s.moto_spots ≠ [])) :
    allocStep s c = { s with non_winners := s.non_winners ++ [mkParticipant c none] } := by
  unfold allocStep
  rw [if_neg h, if_neg h1, if_neg h2]

theorem take_succ_of_drop_cons {l : List α} {n : Nat} {a : α} {t : List α}
    (h : l.drop n = a :: t) : l.take (n + 1) = l.take n ++ [a] := by
  rw [List.take_succ]
  have h0 : l[n]? = some a := by
    have := List.getElem?_drop l n 0
    rw [h] at this
    simpa using this.symm
  rw [h0]
  rfl

theorem allocStep_inv {car0 moto0 : List String} {s : AllocState} (c : Candidate)
    (h : AllocInv car0 moto0 s) : AllocInv car0 moto0 (allocStep s c) := by
  by_cases hdup : candKey c ∈ s.assigned
  · rw [allocStep_dup hdup]
    refine ⟨h.car, h.moto, h.win_spots, ?_, h.assigned_iff, h.keys_nodup⟩
    intro p hp
    rcases List.mem_append.mp hp with hp1 | hp2
    · exact h.lose_spots p hp1
    · rw [List.mem_singleton.mp hp2]
      rfl
  · by_cases hcar : c.request.vehicle_type = VehicleType.automovil ∧ s.car_spots ≠ []
    · obtain ⟨hv, hne⟩ := hcar
      rw [allocStep_win_car hdup hv hne]
      obtain ⟨kc, hdrop, htake⟩ := h.car
      obtain ⟨km, hdropm, htakem⟩ := h.moto
      obtain ⟨a, t, hcons⟩ : ∃ a t, s.car_spots = a :: t := by
        cases hcs : s.car_spots with
        | nil => exact absurd hcs hne
        | cons a t => exact ⟨a, t, rfl⟩
      have hicar : isCar (mkParticipant c s.car_spots.head?) = true := by
        simp [isCar, mkParticipant, hv]
      have hspot : (mkParticipant c s.car_spots.head?).spot = some a := by
        simp [mkParticipant, hcons]
      have hkeyc : assignKey (mkParticipant c s.car_spots.head?).user_id
          (mkParticipant c s.car_spots.head?).vehicle_type = candKey c := rfl
      refine ⟨⟨kc + 1, ?_, ?_⟩, ⟨km, ?_, ?_⟩, ?_, h.lose_spots, ?_, ?_⟩
      · show s.car_spots.tail = car0.drop (kc + 1)
        rw [← List.tail_drop, ← hdrop]
      · show carAssigned (s.winners ++ [mkParticipant c s.car_spots.head?]) = car0.take (kc + 1)
        rw [carAssigned_append, if_pos hicar, hspot, htake,
          take_succ_of_drop_cons (hdrop ▸ hcons)]
        rfl
      · exact hdropm
      · show motoAssigned (s.winners ++ [mkParticipant c s.car_spots.head?]) = moto0.take km
        rw [motoAssigned_append, if_pos hicar, List.append_nil, htakem]
      · intro p hp
        rcases List.mem_append.mp hp with hp1 | hp2
        · exact h.win_spots p hp1
        · rw [List.mem_singleton.mp hp2, hspot]
          rfl
      · intro k
        show k ∈ candKey c :: s.assigned ↔ k ∈ winKeys (s.winners ++ [mkParticipant c _])
        rw [winKeys_append, hkeyc]
        simp only [List.mem_cons, List.mem_append, List.mem_singleton, h.assigned_iff k]
        tauto
      · show (winKeys (s.winners ++ [mkParticipant c _])).Nodup
        rw [winKeys_append, hkeyc]
        refine List.nodup_append.mpr ⟨h.keys_nodup, List.nodup_singleton _, ?_⟩
        intro k hk
        simp only [List.mem_singleton]
        intro hkc
        subst hkc
        exact hdup ((h.assigned_iff _).mpr hk)
    · by_cases hmoto : c.request.vehicle_type = VehicleType.motocicleta ∧ s.moto_spots ≠ []
      · obtain ⟨hv, hne⟩ := hmoto
        rw [allocStep_win_moto hdup hv hne]
        obtain ⟨kc, hdrop, htake⟩ := h.car
        obtain ⟨km, hdropm, htakem⟩ := h.moto
        obtain ⟨a, t, hcons⟩ : ∃ a t, s.moto_spots = a :: t := by
          cases hcs : s.moto_spots with
          | nil => exact absurd hcs hne
          | cons a t => exact ⟨a, t, rfl⟩
        have hicar : isCar (mkParticipant c s.moto_spots.head?) = false := by
          simp [isCar, mkParticipant, hv]
        have hspot : (mkParticipant c s.moto_spots.head?).spot = some a := by
          simp [mkParticipant, hcons]
        have hkeyc : assignKey (mkParticipant c s.moto_spots.head?).user_id
            (mkParticipant c s.moto_spots.head?).vehicle_type = candKey c := rfl
        refine ⟨⟨kc, hdrop, ?_⟩, ⟨km + 1, ?_, ?_⟩, ?_, h.lose_spots, ?_, ?_⟩
        · show carAssigned (s.winners ++ [mkParticipant c s.moto_spots.head?]) = car0.take kc
          rw [carAssigned_append, if_neg (by rw [hicar]; exact Bool.false_ne_true),
            List.append_nil, htake]
        · show s.moto_spots.tail = moto0.drop (km + 1)
          rw [← List.tail_drop, ← hdropm]
        · show motoAssigned (s.winners ++ [mkParticipant c s.moto_spots.head?]) = moto0.take (km + 1)
          rw [motoAssigned_append, if_neg (by rw [hicar]; exact Bool.false_ne_true), hspot,
            htakem, take_succ_of_drop_cons (hdropm ▸ hcons)]
          rfl
        · intro p hp
          rcases List.mem_append.mp hp with hp1 | hp2
          · exact h.win_spots p hp1
          · rw [List.mem_singleton.mp hp2, hspot]
            rfl
        · intro k
          show k ∈ candKey c :: s.assigned ↔ k ∈ winKeys (s.winners ++ [mkParticipant c _])
          rw [winKeys_append, hkeyc]
          simp only [List.mem_cons, List.mem_append, List.mem_singleton, h.assigned_iff k]
          tauto
        · show (winKeys (s.winners ++ [mkParticipant c _])).Nodup
          rw [winKeys_append, hkeyc]
          refine List.nodup_append.mpr ⟨h.keys_nodup, List.nodup_singleton _, ?_⟩
          intro k hk
          simp only [List.mem_singleton]
          intro hkc
          subst hkc
          exact hdup ((h.assigned_iff _).mpr hk)
      · rw [allocStep_lose hdup hcar hmoto]
        refine ⟨h.car, h.moto, h.win_spots, ?_, h.assigned_iff, h.keys_nodup⟩
        intro p hp
        rcases List.mem_append.mp hp with hp1 | hp2
        · exact h.lose_spots p hp1
        · rw [List.mem_singleton.mp hp2]
          rfl

theorem allocLoop_inv {car0 moto0 : List String} :
    ∀ (l : List Candidate) (s : AllocState),
      AllocInv car0 moto0 s → AllocInv car0 moto0 (allocLoop l s) := by
  intro l
  induction l with
  | nil => intro s h; exact h
  | cons c cs ih => intro s h; exact ih (allocStep s c) (allocStep_inv c h)

theorem runAllocation_inv (cands : List Candidate) (car0 moto0 : List String) :
    AllocInv car0 moto0 (runAllocation cands car0 moto0) := by
  refine allocLoop_inv cands _ ?_
  refine ⟨⟨0, rfl, rfl⟩, ⟨0, rfl, rfl⟩, ?_, ?_, ?_, List.Pairwise.nil⟩
  · intro p hp; exact absurd hp (List.not_mem_nil p)
  · intro p hp; exact absurd hp (List.not_mem_nil p)
  · intro k
    constructor
    · intro hk; exact absurd hk (List.not_mem_nil k)
    · intro hk; exact absurd hk (List.not_mem_nil k)

/-! ### Counting and monotonicity of the walk -/

theorem allocStep_counts (s : AllocState) (c : Candidate) :
    (allocStep s c).winners.length + (allocStep s c).non_winners.length
      = s.winners.length + s.non_winners.length + 1 := by
  unfold allocStep
  split
  · simp
    omega
  · split
    · simp
      omega
    · split
      · simp
        omega
      · simp
        omega

theorem allocLoop_counts :
    ∀ (l : List Candidate) (s : AllocState),
      (allocLoop l s).winners.length + (allocLoop l s).non_winners.length
        = s.winners.length + s.non_winners.length + l.length := by
  intro l
  induction l with
  | nil => intro s; simp [allocLoop]
  | cons c cs ih =>
    intro s
    have h1 := ih (allocStep s c)
    have h2 := allocStep_counts s c
    show (allocLoop cs (allocStep s c)).winners.length
        + (allocLoop cs (allocStep s c)).non_winners.length = _
    rw [h1, h2]
    simp [List.length_cons]
    omega

theorem allocStep_winners_shape (s : AllocState) (c : Candidate) :
    (allocStep s c).winners = s.winners
      ∨ ∃ p, (allocStep s c).winners = s.winners ++ [p] := by
  unfold allocStep
  split
  · exact Or.inl rfl
  · split
    · exact Or.inr ⟨_, rfl⟩
    · split
      · exact Or.inr ⟨_, rfl⟩
      · exact Or.inl rfl

theorem allocLoop_winners_mono :
    ∀ (l : List Candidate) (s : AllocState) (p : LotteryParticipantResult),
      p ∈ s.winners → p ∈ (allocLoop l s).winners := by
  intro l
  induction l with
  | nil => intro s p hp; exact hp
  | cons c cs ih =>
    intro s p hp
    refine ih (allocStep s c) p ?_
    rcases allocStep_winners_shape s c with h | ⟨q, h⟩
    · rw [h]; exact hp
    · rw [h]; exact List.mem_append.mpr (Or.inl hp)

theorem allocStep_car_spots_of_ne {s : AllocState} {c : Candidate}
    (h : c.request.vehicle_type ≠ VehicleType.automovil) :
    (allocStep s c).car_spots = s.car_spots := by
  unfold allocStep
  split
  · rfl
  · split
    · rename_i hand; exact absurd hand.1 h
    · split
      · rfl
      · rfl

theorem allocStep_moto_spots_of_ne {s : AllocState} {c : Candidate}
    (h : c.request.vehicle_type ≠ VehicleType.motocicleta) :
    (allocStep s c).moto_spots = s.moto_spots := by
  unfold allocStep
  split
  · rfl
  · split
    · rfl
    · split
      · rename_i hand; exact absurd hand.1 h
      · rfl

theorem allocStep_assigned_sub {s : AllocState} {c : Candidate} :
    ∀ k ∈ (allocStep s c).assigned, k ∈ s.assigned ∨ k = candKey c := by
  unfold allocStep
  split
  · exact fun k hk => Or.inl hk
  · split
    · intro k hk
      rcases List.mem_cons.mp hk with rfl | hk2
      · exact Or.inr rfl
      · exact Or.inl hk2
    · split
      · intro k hk
        rcases List.mem_cons.mp hk with rfl | hk2
        · exact Or.inr rfl
        · exact Or.inl hk2
      · exact fun k hk => Or.inl hk

theorem allocStep_win_vt {s : AllocState} {c : Candidate}
    (h : candKey c ∉ s.assigned)
    (hne : spotsFor s c.request.vehicle_type ≠ []) :
    ∃ a, (allocStep s c).winners = s.winners ++ [mkParticipant c (some a)] ∧
      (allocStep s c).assigned = candKey c :: s.assigned ∧
      spotsFor (allocStep s c) c.request.vehicle_type
        = (spotsFor s c.request.vehicle_type).tail := by
  cases hv : c.request.vehicle_type with
  | automovil =>
    rw [hv] at hne
    have hne' : s.car_spots ≠ [] := hne
    obtain ⟨a, t, hcons⟩ : ∃ a t, s.car_spots = a :: t := by
      cases hcs : s.car_spots with
      | nil => exact absurd hcs hne'
      | cons a t => exact ⟨a, t, rfl⟩
    refine ⟨a, ?_, ?_, ?_⟩
    · rw [allocStep_win_car h hv hne', hcons]
      rfl
    · rw [allocStep_win_car h hv hne']
    · rw [allocStep_win_car h hv hne']
      rfl
  | motocicleta =>
    rw [hv] at hne
    have hne' : s.moto_spots ≠ [] := hne
    obtain ⟨a, t, hcons⟩ : ∃ a t, s.moto_spots = a :: t := by
      cases hcs : s.moto_spots with
      | nil => exact absurd hcs hne'
      | cons a t => exact ⟨a, t, rfl⟩
    refine ⟨a, ?_, ?_, ?_⟩
    · rw [allocStep_win_moto h hv hne', hcons]
      rfl
    · rw [allocStep_win_moto h hv hne']
    · rw [allocStep_win_moto h hv hne']
      rfl

theorem spotsFor_step_of_ne {s : AllocState} {c : Candidate} {C : VehicleType}
    (h : c.request.vehicle_type ≠ C) :
    spotsFor (allocStep s c) C = spotsFor s C := by
  cases C with
  | automovil => exact allocStep_car_spots_of_ne h
  | motocicleta => exact allocStep_moto_spots_of_ne h

/-! ### Every candidate of an under-subscribed category wins -/

theorem allocLoop_all_win (C : VehicleType) :
    ∀ (l : List Candidate) (s : AllocState),
      (l.filter (fun c => c.request.vehicle_type == C)).length ≤ (spotsFor s C).length →
      (∀ c ∈ l, c.request.vehicle_type = C → candKey c ∉ s.assigned) →
      ((l.filter (fun c => c.request.vehicle_type == C)).map
        (fun c => pyStr c.user.id)).Nodup →
      ∀ c ∈ l, c.request.vehicle_type = C →
        ∃ sp, mkParticipant c (some sp) ∈ (allocLoop l s).winners := by
  intro l
  induction l with
  | nil => intro s _ _ _ c hc _; exact absurd hc (List.not_mem_nil c)
  | cons c0 cs ih =>
    intro s hlen hkeys hnodup c hc hcvt
    by_cases hvt0 : c0.request.vehicle_type = C
    · have hfilter : (c0 :: cs).filter (fun c => c.request.vehicle_type == C)
          = c0 :: cs.filter (fun c => c.request.vehicle_type == C) := by
        simp [List.filter_cons, hvt0]
      have hne : spotsFor s C ≠ [] := by
        intro h0
        rw [h0, hfilter] at hlen
        simp at hlen
      have hkey0 : candKey c0 ∉ s.assigned := hkeys c0 (List.mem_cons_self c0 cs) hvt0
      have hneA : spotsFor s c0.request.vehicle_type ≠ [] := by rw [hvt0]; exact hne
      obtain ⟨a, hw, hassign, htail⟩ := allocStep_win_vt hkey0 hneA
      rw [hvt0] at htail
      have hnodup' : ((cs.filter (fun c => c.request.vehicle_type == C)).map
          (fun c => pyStr c.user.id)).Nodup := by
        rw [hfilter, List.map_cons] at hnodup
        exact (List.nodup_cons.mp hnodup).2
      have hhead : pyStr c0.user.id ∉ (cs.filter (fun c => c.request.vehicle_type == C)).map
          (fun c => pyStr c.user.id) := by
        rw [hfilter, List.map_cons] at hnodup
        exact (List.nodup_cons.mp hnodup).1
      rcases List.mem_cons.mp hc with rfl | hcs
      · exact ⟨a, allocLoop_winners_mono cs _ _
          (hw ▸ List.mem_append.mpr (Or.inr (List.mem_singleton.mpr rfl)))⟩
      · refine ih (allocStep s c0) ?_ ?_ hnodup' c hcs hcvt
        · rw [htail, List.length_tail]
          rw [hfilter] at hlen
          simp only [List.length_cons] at hlen
          omega
        · intro c' hc' hvt' hk
          rw [hassign] at hk
          rcases List.mem_cons.mp hk with hk1 | hk2
          · have huid := ((candKey_eq_iff c' c0).mp hk1).1
            apply hhead
            rw [← huid]
            exact List.mem_map_of_mem _
              (List.mem_filter.mpr ⟨hc', by simp [hvt']⟩)
          · exact hkeys c' (List.mem_cons_of_mem c0 hc') hvt' hk2
    · have hfilter : (c0 :: cs).filter (fun c => c.request.vehicle_type == C)
          = cs.filter (fun c => c.request.vehicle_type == C) := by
        simp [List.filter_cons, hvt0]
      have hcs : c ∈ cs := by
        rcases List.mem_cons.mp hc with rfl | hmem
        · exact absurd hcvt hvt0
        · exact hmem
      refine ih (allocStep s c0) ?_ ?_ ?_ c hcs hcvt
      · rw [spotsFor_step_of_ne hvt0]
        rw [hfilter] at hlen
        exact hlen
      · intro c' hc' hvt' hk
        rcases allocStep_assigned_sub _ hk with hk1 | hk2
        · exact hkeys c' (List.mem_cons_of_mem c0 hc') hvt' hk1
        · have hvts := ((candKey_eq_iff c' c0).mp hk2).2
          exact hvt0 (hvts ▸ hvt')
      · rw [hfilter] at hnodup
        exact hnodup

/-! ### Corollaries of the walk invariant -/

theorem filterMap_spot_length {w : List LotteryParticipantResult}
    (h : ∀ p ∈ w, p.spot.isSome) :
    (w.filterMap (fun p => p.spot)).length = w.length := by
  induction w with
  | nil => rfl
  | cons p ps ih =>
    obtain ⟨a, ha⟩ := Option.isSome_iff_exists.mp (h p (List.mem_cons_self p ps))
    rw [List.filterMap_cons, ha]
    simp only [List.length_cons]
    rw [ih (fun q hq => h q (List.mem_cons_of_mem p hq))]

theorem alloc_winners_category_bound {car0 moto0 : List String} {s : AllocState}
    (h : AllocInv car0 moto0 s) :
    (s.winners.filter isCar).length ≤ car0.length ∧
    (s.winners.filter (fun p => ! isCar p)).length ≤ moto0.length := by
  obtain ⟨kc, _, htake⟩ := h.car
  obtain ⟨km, _, htakem⟩ := h.moto
  constructor
  · have h1 : carAssigned s.winners = car0.take kc := htake
    have h2 : (carAssigned s.winners).length = (s.winners.filter isCar).length := by
      unfold carAssigned
      exact filterMap_spot_length
        (fun p hp => h.win_spots p (List.mem_filter.mp hp).1)
    rw [← h2, h1, List.length_take]
    exact min_le_right _ _
  · have h1 : motoAssigned s.winners = moto0.take km := htakem
    have h2 : (motoAssigned s.winners).length
        = (s.winners.filter (fun p => ! isCar p)).length := by
      unfold motoAssigned
      exact filterMap_spot_length
        (fun p hp => h.win_spots p (List.mem_filter.mp hp).1)
    rw [← h2, h1, List.length_take]
    exact min_le_right _ _

theorem alloc_winners_spots_nodup {car0 moto0 : List String} {s : AllocState}
    (h : AllocInv car0 moto0 s) (hc : car0.Nodup) (hm : moto0.Nodup)
    (hdisj : ∀ x ∈ car0, x ∉ moto0) :
    (s.winners.filterMap (fun p => p.spot)).Nodup := by
  obtain ⟨kc, _, htake⟩ := h.car
  obtain ⟨km, _, htakem⟩ := h.moto
  have hperm : s.winners.filter isCar ++ s.winners.filter (fun p => ! isCar p)
      ~ s.winners := List.filter_append_perm isCar s.winners
  have h2 := hperm.filterMap (fun p => p.spot)
  have h3 : (s.winners.filter isCar ++ s.winners.filter (fun p => ! isCar p)).filterMap
        (fun p => p.spot)
      = car0.take kc ++ moto0.take km := by
    rw [List.filterMap_append]
    show carAssigned s.winners ++ motoAssigned s.winners = _
    rw [htake, htakem]
  rw [h3] at h2
  refine h2.nodup_iff.mp ?_
  refine List.nodup_append.mpr ⟨(List.take_sublist kc car0).nodup hc,
    (List.take_sublist km moto0).nodup hm, ?_⟩
  intro x hx hx2
  exact hdisj x ((List.take_sublist kc car0).subset hx)
    ((List.take_sublist km moto0).subset hx2)

theorem execute_lottery_conflict {env : Env} {d : LotteryCreate}
    {sh : Nat → List Candidate → List Candidate} {now : Nat} {newId : String}
    {L : LotteryResult} (h : find_one_lottery env.lotteries d.period = some L) :
    execute_lottery env d sh now newId =
      (Except.error (PyError.http 409
        ("Ya se ha ejecutado un sorteo para el período " ++ d.period ++
          ". ID: " ++ pyStr L.id)),
       env.lotteries) := by
  unfold execute_lottery
  rw [h]

theorem execute_lottery_empty {env : Env} {d : LotteryCreate}
    {sh : Nat → List Candidate → List Candidate} {now : Nat} {newId : String}
    (h : find_one_lottery env.lotteries d.period = none)
    (he : loadAccepted env d.period = []) :
    execute_lottery env d sh now newId =
      (Except.ok (emptyResultOf d now newId),
       env.lotteries ++ [emptyResultOf d now newId]) := by
  unfold execute_lottery
  rw [h]
  simp only [he, List.isEmpty_nil, if_pos]
  rfl

theorem execute_lottery_valueError {env : Env} {d : LotteryCreate}
    {sh : Nat → List Candidate → List Candidate} {now : Nat} {newId : String}
    (h : find_one_lottery env.lotteries d.period = none)
    (he : loadAccepted env d.period ≠ [])
    (hb : get_previous_period_non_winners env.lotteries d.period = none) :
    execute_lottery env d sh now newId = (Except.error PyError.valueError, env.lotteries) := by
  unfold execute_lottery
  rw [h]
  have hne : (loadAccepted env d.period).isEmpty ≠ true := by
    intro hh
    exact he (List.isEmpty_iff.mp hh)
  simp only [if_neg hne, hb]

theorem execute_lottery_run {env : Env} {d : LotteryCreate}
    {sh : Nat → List Candidate → List Candidate} {now : Nat} {newId : String}
    {boost : List String}
    (h : find_one_lottery env.lotteries d.period = none)
    (he : loadAccepted env d.period ≠ [])
    (hb : get_previous_period_non_winners env.lotteries d.period = some boost) :
    execute_lottery env d sh now newId =
      (Except.ok (runResultOf env d sh now newId boost),
       env.lotteries ++ [runResultOf env d sh now newId boost]) := by
  unfold execute_lottery
  rw [h]
  have hne : (loadAccepted env d.period).isEmpty ≠ true := by
    intro hh
    exact he (List.isEmpty_iff.mp hh)
  simp only [if_neg hne, hb]
  rfl

theorem execute_ok_cases {env : Env} {d : LotteryCreate}
    {sh : Nat → List Candidate → List Candidate} {now : Nat} {newId : String}
    {res : LotteryResult}
    (hok : (execute_lottery env d sh now newId).1 = Except.ok res) :
    (loadAccepted env d.period = [] ∧ res = emptyResultOf d now newId) ∨
    (∃ boost, get_previous_period_non_winners env.lotteries d.period = some boost ∧
      loadAccepted env d.period ≠ [] ∧ res = runResultOf env d sh now newId boost) := by
  cases hfind : find_one_lottery env.lotteries d.period with
  | some L =>
    rw [execute_lottery_conflict hfind] at hok
    exact absurd hok (by simp)
  | none =>
    by_cases hemp : loadAccepted env d.period = []
    · left
      refine ⟨hemp, ?_⟩
      rw [execute_lottery_empty hfind hemp] at hok
      simpa using hok.symm
    · right
      cases hb : get_previous_period_non_winners env.lotteries d.period with
      | none =>
        rw [execute_lottery_valueError hfind hemp hb] at hok
        exact absurd hok (by simp)
      | some boost =>
        refine ⟨boost, rfl, hemp, ?_⟩
        rw [execute_lottery_run hfind hemp hb] at hok
        simpa using hok.symm

/-! ### Scoring facts -/

theorem priority_score_closed (boost : List String) (c : Candidate) :
    priority_score boost c =
      (if c.request.disability then 1000 else 0)
      + (if pyStr c.user.id ∈ boost then 500 else 0)
      + (if c.request.pay then 100 else 0) := by
  unfold priority_score
  by_cases h1 : c.request.disability <;> by_cases h2 : pyStr c.user.id ∈ boost <;>
    by_cases h3 : c.request.pay <;> simp [h1, h2, h3]

theorem priority_score_ge_of_disability {boost : List String} {c : Candidate}
    (h : c.request.disability = true) : 1000 ≤ priority_score boost c := by
  rw [priority_score_closed, h]
  by_cases h2 : pyStr c.user.id ∈ boost <;> by_cases h3 : c.request.pay <;>
    simp [h2, h3]

theorem priority_score_le_of_not_disability {boost : List String} {c : Candidate}
    (h : c.request.disability = false) : priority_score boost c ≤ 600 := by
  rw [priority_score_closed, h]
  by_cases h2 : pyStr c.user.id ∈ boost <;> by_cases h3 : c.request.pay <;>
    simp [h2, h3]

/-- The number of candidates built equals the number of loaded requests minus
those whose resident record does not resolve. -/
theorem buildCandidates_length (users : String → Option User) (reqs : List Request) :
    (buildCandidates users reqs).length
      = reqs.length - (reqs.filter (fun r => (users r.user_id).isNone)).length := by
  induction reqs with
  | nil => rfl
  | cons r rs ih =>
    have hsk : (rs.filter (fun r => (users r.user_id).isNone)).length ≤ rs.length :=
      List.length_filter_le _ rs
    have ih' : (rs.filterMap
        (fun r => (users r.user_id).map (fun u => Candidate.mk r u))).length
        = rs.length - (rs.filter (fun r => (users r.user_id).isNone)).length := ih
    cases hu : users r.user_id with
    | some u =>
      have hstep : buildCandidates users (r :: rs)
          = Candidate.mk r u :: rs.filterMap
              (fun r => (users r.user_id).map (fun u => Candidate.mk r u)) := by
        unfold buildCandidates
        rw [List.filterMap_cons, hu]
        rfl
      have hfilt : (r :: rs).filter (fun r => (users r.user_id).isNone)
          = rs.filter (fun r => (users r.user_id).isNone) := by
        rw [List.filter_cons, hu]
        rfl
      rw [hstep, hfilt, List.length_cons, List.length_cons, ih']
      omega
    | none =>
      have hstep : buildCandidates users (r :: rs)
          = rs.filterMap (fun r => (users r.user_id).map (fun u => Candidate.mk r u)) := by
        unfold buildCandidates
        rw [List.filterMap_cons, hu]
        rfl
      have hfilt : (r :: rs).filter (fun r => (users r.user_id).isNone)
          = r :: rs.filter (fun r => (users r.user_id).isNone) := by
        rw [List.filter_cons, hu]
        rfl
      rw [hstep, hfilt, List.length_cons, List.length_cons, ih']
      omega

/-! ### The claims -/

/-- Claim C1, counterexample: with two duplicate accepted car requests of the
same resident (`demoReq1` and `dupReq`, both resident `u1`, category car) and
one car spot offered, the produced result records the pair `(u1, automovil)`
once among winners and once among non-winners — twice across
`winners ∪ nonWinners` — refuting "at most once among winners ∪ nonWinners,
even when the input contains duplicate accepted requests". -/
theorem C1_pair_twice_counterexample :
    ((execute_lottery dupEnv dupData1 shId 0 "L1").1.toOption.map
      (fun res => ((res.winners ++ res.non_winners).filter
        (fun p => p.user_id == "u1" && p.vehicle_type == VehicleType.automovil)).length))
      = some 2 := by
  decide

/-- Claim C1, amended: in every produced `AllocationResult`, every
`(residentId, vehicleCategory)` pair appears at most once among `winners`;
a duplicate accepted request for an already-assigned pair is defensively
recorded as an extra non-winner entry, never double-assigned. -/
theorem C1_winner_pair_unique {env : Env} {d : LotteryCreate}
    {sh : Nat → List Candidate → List Candidate} {now : Nat} {newId : String}
    {res : LotteryResult}
    (hok : (execute_lottery env d sh now newId).1 = Except.ok res) :
    List.Pairwise
      (fun p q => ¬(p.user_id = q.user_id ∧ p.vehicle_type = q.vehicle_type))
      res.winners := by
  rcases execute_ok_cases hok with ⟨_, rfl⟩ | ⟨boost, hb, hne, rfl⟩
  · exact List.Pairwise.nil
  · have hinv := runAllocation_inv
      (orderCandidates sh boost (buildCandidates env.users (loadAccepted env d.period)))
      (generate_spots d.num_car_spots d.num_moto_spots).1
      (generate_spots d.num_car_spots d.num_moto_spots).2
    have hkeys := hinv.keys_nodup
    unfold winKeys at hkeys
    have hpw := List.pairwise_map.mp hkeys
    refine hpw.imp ?_
    intro p q hpq hcontra
    exact hpq (by rw [hcontra.1, hcontra.2])

theorem C1_winner_pair_unique_witness :
    List.Pairwise
      (fun p q => ¬(p.user_id = q.user_id ∧ p.vehicle_type = q.vehicle_type))
      demoRes.winners :=
  @C1_winner_pair_unique demoEnv demoData shId 0 "L1" demoRes (by decide)

/-- Claim C2: the priority score is exactly the sum of 1000 for the request's
disability flag, 500 for membership of the resident id in the previous-period
non-winner set, and 100 for the request's dues-paid flag (0 when none), and
no other field of the request or resident affects the score. -/
theorem C2_score_formula (boost : List String) (c : Candidate) :
    priority_score boost c =
      (if c.request.disability then 1000 else 0)
      + (if pyStr c.user.id ∈ boost then 500 else 0)
      + (if c.request.pay then 100 else 0)
    ∧ ∀ c' : Candidate,
        c'.request.disability = c.request.disability →
        c'.request.pay = c.request.pay →
        (pyStr c'.user.id ∈ boost ↔ pyStr c.user.id ∈ boost) →
        priority_score boost c' = priority_score boost c := by
  refine ⟨priority_score_closed boost c, ?_⟩
  intro c' h1 h2 h3
  rw [priority_score_closed boost c', priority_score_closed boost c, h1, h2]
  by_cases hm : pyStr c.user.id ∈ boost
  · rw [if_pos hm, if_pos (h3.mpr hm)]
  · rw [if_neg hm, if_neg (fun hx => hm (h3.mp hx))]

theorem C2_score_formula_witness :
    priority_score ["u9"] (Candidate.mk demoReq1 demoUser1)
        = (if demoReq1.disability then 1000 else 0)
          + (if pyStr demoUser1.id ∈ ["u9"] then 500 else 0)
          + (if demoReq1.pay then 100 else 0)
    ∧ priority_score ["u9"] (Candidate.mk dupReq demoUser2)
        = priority_score ["u9"] (Candidate.mk demoReq1 demoUser1) :=
  ⟨(C2_score_formula ["u9"] (Candidate.mk demoReq1 demoUser1)).1,
   (C2_score_formula ["u9"] (Candidate.mk demoReq1 demoUser1)).2
     (Candidate.mk dupReq demoUser2) (by decide) (by decide) (by decide)⟩

/-- Claim C3: when a lottery already exists for the requested period,
`execute_lottery` raises HTTP 409 Conflict and the stored lotteries
collection is returned unchanged — the existing record is not mutated and no
new record is persisted. -/
theorem C3_conflict_no_mutation {env : Env} {d : LotteryCreate}
    {sh : Nat → List Candidate → List Candidate} {now : Nat} {newId : String}
    {L : LotteryResult}
    (hfind : find_one_lottery env.lotteries d.period = some L) :
    (execute_lottery env d sh now newId).1
        = Except.error (PyError.http 409
            ("Ya se ha ejecutado un sorteo para el período " ++ d.period ++
              ". ID: " ++ pyStr L.id))
      ∧ (execute_lottery env d sh now newId).2 = env.lotteries := by
  rw [execute_lottery_conflict hfind]
  exact ⟨rfl, rfl⟩

theorem C3_conflict_no_mutation_witness :
    (execute_lottery c3Env demoData shId 9 "L9").1
        = Except.error (PyError.http 409
            ("Ya se ha ejecutado un sorteo para el período " ++ demoData.period ++
              ". ID: " ++ pyStr (emptyResultOf demoData 7 "L0").id))
      ∧ (execute_lottery c3Env demoData shId 9 "L9").2 = c3Env.lotteries :=
  C3_conflict_no_mutation (by decide)

/-- Claim C4, counterexample: with two duplicate accepted car requests of the
same resident and two car spots offered (so accepted-car-requests = 2 ≤ 2 =
offered), the second duplicate is recorded as a non-winner, refuting "every
request in that category is recorded as a winner". -/
theorem C4_duplicate_counterexample :
    ((loadAccepted dupEnv "2025-07").filter
        (fun r => r.vehicle_type == VehicleType.automovil)).length = 2
    ∧ dupData2.num_car_spots = 2
    ∧ ((execute_lottery dupEnv dupData2 shId 0 "L1").1.toOption.map
        (fun res => (res.winners.map (fun p => p.request_id),
          res.non_winners.map (fun p => p.request_id))))
      = some (["r1"], ["r1b"]) := by
  decide

/-- Claim C4, amended: the number of winners per category never exceeds the
offered spot count for that category; and every accepted request of a
category wins provided its resident resolves, the category's resolved
candidates have pairwise-distinct resident ids (no duplicate
(resident, category) pairs), and their number is at most the offered count. -/
theorem C4_capacity_and_full_win {env : Env} {d : LotteryCreate}
    {sh : Nat → List Candidate → List Candidate} {now : Nat} {newId : String}
    {res : LotteryResult}
    (hsh : ∀ i g, sh i g ~ g)
    (hok : (execute_lottery env d sh now newId).1 = Except.ok res) :
    (res.winners.filter isCar).length ≤ d.num_car_spots
    ∧ (res.winners.filter (fun p => ! isCar p)).length ≤ d.num_moto_spots
    ∧ ∀ C : VehicleType,
        (((buildCandidates env.users (loadAccepted env d.period)).filter
            (fun c => c.request.vehicle_type == C)).map
            (fun c => pyStr c.user.id)).Nodup →
        ((buildCandidates env.users (loadAccepted env d.period)).filter
            (fun c => c.request.vehicle_type == C)).length ≤ spotCountFor d C →
        ∀ r ∈ loadAccepted env d.period, r.vehicle_type = C →
          (env.users r.user_id).isSome →
          ∃ p ∈ res.winners,
            p.request_id = pyStr r.id ∧ p.vehicle_type = C ∧ p.spot ≠ none := by
  rcases execute_ok_cases hok with ⟨hemp, rfl⟩ | ⟨boost, hb, hne, rfl⟩
  · refine ⟨by simp [emptyResultOf], by simp [emptyResultOf], ?_⟩
    intro C _ _ r hr
    rw [hemp] at hr
    exact absurd hr (List.not_mem_nil r)
  · have hinv := runAllocation_inv
      (orderCandidates sh boost (buildCandidates env.users (loadAccepted env d.period)))
      (generate_spots d.num_car_spots d.num_moto_spots).1
      (generate_spots d.num_car_spots d.num_moto_spots).2
    have hbound := alloc_winners_category_bound hinv
    have hlen := generate_spots_lengths d.num_car_spots d.num_moto_spots
    refine ⟨?_, ?_, ?_⟩
    · exact le_trans hbound.1 (le_of_eq hlen.1)
    · exact le_trans hbound.2 (le_of_eq hlen.2)
    · intro C hnodup hcnt r hr hvt hres
      obtain ⟨u, hu⟩ := Option.isSome_iff_exists.mp hres
      have hcand : Candidate.mk r u
          ∈ buildCandidates env.users (loadAccepted env d.period) := by
        unfold buildCandidates
        refine List.mem_filterMap.mpr ⟨r, hr, ?_⟩
        rw [hu]
        rfl
      have hperm := orderCandidates_perm sh hsh boost
        (buildCandidates env.users (loadAccepted env d.period))
      have hpermf := hperm.filter (fun c => c.request.vehicle_type == C)
      have hspots : (spotsFor
          { car_spots := (generate_spots d.num_car_spots d.num_moto_spots).1
            moto_spots := (generate_spots d.num_car_spots d.num_moto_spots).2
            winners := [], non_winners := [], assigned := [] } C).length
          = spotCountFor d C := by
        cases C with
        | automovil => exact hlen.1
        | motocicleta => exact hlen.2
      have hwin := allocLoop_all_win C
        (orderCandidates sh boost (buildCandidates env.users (loadAccepted env d.period)))
        { car_spots := (generate_spots d.num_car_spots d.num_moto_spots).1
          moto_spots := (generate_spots d.num_car_spots d.num_moto_spots).2
          winners := [], non_winners := [], assigned := [] }
        (by rw [hpermf.length_eq, hspots]; exact hcnt)
        (fun c _ _ hk => absurd hk (List.not_mem_nil _))
        ((hpermf.map (fun c => pyStr c.user.id)).nodup_iff.mpr hnodup)
        (Candidate.mk r u) (hperm.mem_iff.mpr hcand) hvt
      obtain ⟨sp, hsp⟩ := hwin
      exact ⟨mkParticipant (Candidate.mk r u) (some sp), hsp, rfl, hvt, by simp [mkParticipant]⟩

theorem C4_capacity_and_full_win_witness :
    (demoC4Res.winners.filter isCar).length ≤ 2
    ∧ (∃ p ∈ demoC4Res.winners, p.request_id = pyStr demoReq1.id
        ∧ p.vehicle_type = VehicleType.automovil ∧ p.spot ≠ none) := by
  have h := @C4_capacity_and_full_win demoEnv c4wData shId 0 "L1" demoC4Res
    (fun i g => List.Perm.refl g) (by decide)
  exact ⟨h.1, h.2.2 VehicleType.automovil (by decide) (by decide) demoReq1
    (by decide) (by decide) (by decide)⟩

/-- Claim C5: on a well-formed `YYYY-MM` period (real month, positive year)
the carry-forward resolver succeeds and returns exactly the resident ids of
the non-winners stored for the immediately prior calendar month (January
rolls to December of the previous year), the empty set when no result is
stored for that month; consequently the +500 summand of the score is
awarded exactly to residents listed in the immediately prior period's stored
non-winners, and never on the strength of a result two or more periods
back. -/
theorem C5_carry_forward (store : List LotteryResult) (y m : Nat)
    (hy : 1 ≤ y) (hm1 : 1 ≤ m) (hm2 : m ≤ 12) :
    get_previous_period_non_winners store (fmtPeriod y m)
      = some (storedNonWinnerIds store
          (if m = 1 then fmtPeriod (y - 1) 12 else fmtPeriod y (m - 1)))
    ∧ ∀ (c : Candidate) (r : List String),
        get_previous_period_non_winners store (fmtPeriod y m) = some r →
        priority_score r c =
          (if c.request.disability then 1000 else 0)
          + (if pyStr c.user.id ∈ storedNonWinnerIds store
              (if m = 1 then fmtPeriod (y - 1) 12 else fmtPeriod y (m - 1))
             then 500 else 0)
          + (if c.request.pay then 100 else 0) := by
  have hmain := get_previous_period_non_winners_eq store y m hy hm1 hm2
  refine ⟨hmain, ?_⟩
  intro c r hr
  rw [hmain] at hr
  have hr' : r = storedNonWinnerIds store
      (if m = 1 then fmtPeriod (y - 1) 12 else fmtPeriod y (m - 1)) := by
    injection hr with h'
    exact h'.symm
  rw [hr'] at *
  exact priority_score_closed _ c

theorem C5_carry_forward_witness :
    get_previous_period_non_winners c5Store (fmtPeriod 2025 1)
      = some (storedNonWinnerIds c5Store (fmtPeriod 2024 12))
    ∧ priority_score ["u1"] (Candidate.mk demoReq1 demoUser1) =
        (if demoReq1.disability then 1000 else 0)
        + (if pyStr demoUser1.id ∈ storedNonWinnerIds c5Store (fmtPeriod 2024 12)
           then 500 else 0)
        + (if demoReq1.pay then 100 else 0) := by
  have h := C5_carry_forward c5Store 2025 1 (by decide) (by decide) (by decide)
  constructor
  · have h1 := h.1
    simpa using h1
  · have h2 := h.2 (Candidate.mk demoReq1 demoUser1)
      (storedNonWinnerIds c5Store (fmtPeriod 2024 12)) (by simpa using h.1)
    have hset : storedNonWinnerIds c5Store (fmtPeriod 2024 12) = ["u1"] := by decide
    rw [← hset]
    simpa using h2

/-- Claim C6, counterexample: `find_many` is called with `limit=1000`, so with
1001 accepted requests for the period (all with resolvable residents) only
1000 are processed and `|winners| + |nonWinners| = 1000 ≠ 1001 − 0`, refuting
"all accepted requests for the period are loaded and processed". -/
theorem C6_load_cap_counterexample :
    (c6Env.requests.filter (fun r =>
        r.lottery_period == c6Data.period && r.status == RequestStatus.accepted)).length
      = 1001
    ∧ (c6Env.requests.all (fun r => (c6Env.users r.user_id).isSome)) = true
    ∧ ((execute_lottery c6Env c6Data shId 0 "L1").1.toOption.map
        (fun res => res.winners.length + res.non_winners.length)) = some 1000 := by
  have hreq : c6Env.requests = List.replicate 1001 demoReq1 := rfl
  have hpred : ((fun r => r.lottery_period == c6Data.period
      && r.status == RequestStatus.accepted) demoReq1) = true := by decide
  have hload : loadAccepted c6Env c6Data.period = List.replicate 1000 demoReq1 := by
    unfold loadAccepted
    rw [hreq, List.filter_replicate, if_pos hpred, List.take_replicate]
    norm_num
  refine ⟨?_, ?_, ?_⟩
  · rw [hreq, List.filter_replicate, if_pos hpred, List.length_replicate]
  · rw [List.all_eq_true]
    intro r hr
    rw [hreq] at hr
    rw [List.eq_of_mem_replicate hr]
    decide
  · have hfind : find_one_lottery c6Env.lotteries c6Data.period = none := rfl
    have hne : loadAccepted c6Env c6Data.period ≠ [] := by
      rw [hload]
      intro h0
      have hlen0 := congrArg List.length h0
      rw [List.length_replicate] at hlen0
      exact absurd hlen0 (by decide)
    have hb : get_previous_period_non_winners c6Env.lotteries c6Data.period
        = some [] := by decide
    rw [execute_lottery_run hfind hne hb]
    have hcount : (runResultOf c6Env c6Data shId 0 "L1" []).winners.length
        + (runResultOf c6Env c6Data shId 0 "L1" []).non_winners.length = 1000 := by
      simp only [runResultOf]
      unfold runAllocation
      rw [allocLoop_counts]
      rw [(orderCandidates_perm shId (fun i g => List.Perm.refl g) []
        (buildCandidates c6Env.users (loadAccepted c6Env c6Data.period))).length_eq]
      rw [buildCandidates_length, hload, List.filter_replicate, if_neg (by decide)]
      simp only [List.length_replicate, List.length_nil]
    simp only [Except.toOption, Option.map_some']
    rw [hcount]

/-- Claim C6, amended: all accepted requests for the period up to the
repository page limit of 1000 (`find_many(..., limit=1000)`) are loaded, and
every loaded request whose resident record resolves contributes exactly one
entry to winners ∪ nonWinners, so `|winners| + |nonWinners|` equals the
number of loaded accepted requests minus those skipped for unresolvable
residents. -/
theorem C6_conservation {env : Env} {d : LotteryCreate}
    {sh : Nat → List Candidate → List Candidate} {now : Nat} {newId : String}
    {res : LotteryResult}
    (hsh : ∀ i g, sh i g ~ g)
    (hok : (execute_lottery env d sh now newId).1 = Except.ok res) :
    res.winners.length + res.non_winners.length
      = (loadAccepted env d.period).length
        - ((loadAccepted env d.period).filter
            (fun r => (env.users r.user_id).isNone)).length := by
  rcases execute_ok_cases hok with ⟨hemp, rfl⟩ | ⟨boost, hb, hne, rfl⟩
  · simp [emptyResultOf, hemp]
  · simp only [runResultOf]
    unfold runAllocation
    rw [allocLoop_counts]
    rw [(orderCandidates_perm sh hsh boost
      (buildCandidates env.users (loadAccepted env d.period))).length_eq]
    rw [buildCandidates_length]
    simp

theorem C6_conservation_witness :
    demoRes.winners.length + demoRes.non_winners.length
      = (loadAccepted demoEnv demoData.period).length
        - ((loadAccepted demoEnv demoData.period).filter
            (fun r => (demoEnv.users r.user_id).isNone)).length :=
  @C6_conservation demoEnv demoData shId 0 "L1" demoRes
    (fun i g => List.Perm.refl g) (by decide)

/-- Claim C7: for every admissible shuffle outcome, every candidate with the
disability flag precedes every candidate without it in the final ordered
list: the list is sorted by score in non-increasing order, a disability
candidate scores at least 1000 and a non-disability candidate at most 600,
and the shuffle only permutes within equal-score tiers. -/
theorem C7_disability_outranks
    (sh : Nat → List Candidate → List Candidate) (hsh : ∀ i g, sh i g ~ g)
    (boost : List String) (cands : List Candidate) (i j : Nat)
    (hi : i < (orderCandidates sh boost cands).length)
    (hj : j < (orderCandidates sh boost cands).length)
    (hdi : ((orderCandidates sh boost cands).get ⟨i, hi⟩).request.disability = true)
    (hdj : ((orderCandidates sh boost cands).get ⟨j, hj⟩).request.disability = false) :
    i < j := by
  have hsorted := orderCandidates_sorted sh hsh boost cands
  rcases Nat.lt_trichotomy i j with h | h | h
  · exact h
  · exfalso
    subst h
    rw [hdi] at hdj
    exact Bool.noConfusion hdj
  · exfalso
    have hp := List.pairwise_iff_get.mp hsorted ⟨j, hj⟩ ⟨i, hi⟩ (by simpa using h)
    have h1 := @priority_score_ge_of_disability boost _ hdi
    have h2 := @priority_score_le_of_not_disability boost _ hdj
    omega

theorem C7_disability_outranks_witness :
    ((orderCandidates shId [] [Candidate.mk demoReq1 demoUser1,
        Candidate.mk demoReq2 demoUser2]).get ⟨0, by decide⟩).request.disability = true
    ∧ ((orderCandidates shId [] [Candidate.mk demoReq1 demoUser1,
        Candidate.mk demoReq2 demoUser2]).get ⟨1, by decide⟩).request.disability = false
    ∧ (0 : Nat) < 1 :=
  ⟨by decide, by decide,
    C7_disability_outranks shId (fun i g => List.Perm.refl g) []
      [Candidate.mk demoReq1 demoUser1, Candidate.mk demoReq2 demoUser2] 0 1
      (by decide) (by decide) (by decide) (by decide)⟩

/-- Claim C8: every produced result assigns pairwise-distinct spot ids to its
winners; the generator produces, for the offered counts, two sequences of
distinct identifiers of exactly those lengths (deterministically — it is a
pure function), and the walk pops each spot at most once. -/
theorem C8_spot_uniqueness {env : Env} {d : LotteryCreate}
    {sh : Nat → List Candidate → List Candidate} {now : Nat} {newId : String}
    {res : LotteryResult}
    (hok : (execute_lottery env d sh now newId).1 = Except.ok res) :
    (res.winners.filterMap (fun p => p.spot)).Nodup
    ∧ (generate_spots d.num_car_spots d.num_moto_spots).1.length = d.num_car_spots
    ∧ (generate_spots d.num_car_spots d.num_moto_spots).2.length = d.num_moto_spots
    ∧ (generate_spots d.num_car_spots d.num_moto_spots).1.Nodup
    ∧ (generate_spots d.num_car_spots d.num_moto_spots).2.Nodup := by
  have hlen := generate_spots_lengths d.num_car_spots d.num_moto_spots
  have hnd := generate_spots_nodup d.num_car_spots d.num_moto_spots
  refine ⟨?_, hlen.1, hlen.2, hnd.1, hnd.2⟩
  rcases execute_ok_cases hok with ⟨_, rfl⟩ | ⟨boost, hb, hne, rfl⟩
  · simp [emptyResultOf]
  · exact alloc_winners_spots_nodup
      (runAllocation_inv
        (orderCandidates sh boost (buildCandidates env.users (loadAccepted env d.period)))
        (generate_spots d.num_car_spots d.num_moto_spots).1
        (generate_spots d.num_car_spots d.num_moto_spots).2)
      hnd.1 hnd.2 (generate_spots_disjoint _ _)

theorem C8_spot_uniqueness_witness :
    (demoRes.winners.filterMap (fun p => p.spot)).Nodup
    ∧ (generate_spots demoData.num_car_spots demoData.num_moto_spots).1.length
        = demoData.num_car_spots
    ∧ (generate_spots demoData.num_car_spots demoData.num_moto_spots).2.length
        = demoData.num_moto_spots
    ∧ (generate_spots demoData.num_car_spots demoData.num_moto_spots).1.Nodup
    ∧ (generate_spots demoData.num_car_spots demoData.num_moto_spots).2.Nodup :=
  @C8_spot_uniqueness demoEnv demoData shId 0 "L1" demoRes (by decide)

/-- Claim C9: with no accepted requests for the period (and no prior result
for it), `execute_lottery` succeeds: it persists and returns an
`AllocationResult` with empty winner and non-winner lists whose recorded
offered-spot totals are exactly the supplied counts. -/
theorem C9_empty_run {env : Env} {d : LotteryCreate}
    {sh : Nat → List Candidate → List Candidate} {now : Nat} {newId : String}
    (hfind : find_one_lottery env.lotteries d.period = none)
    (hemp : loadAccepted env d.period = []) :
    execute_lottery env d sh now newId
      = (Except.ok (emptyResultOf d now newId),
         env.lotteries ++ [emptyResultOf d now newId])
    ∧ (emptyResultOf d now newId).winners = []
    ∧ (emptyResultOf d now newId).non_winners = []
    ∧ (emptyResultOf d now newId).total_car_spots_offered = d.num_car_spots
    ∧ (emptyResultOf d now newId).total_moto_spots_offered = d.num_moto_spots :=
  ⟨execute_lottery_empty hfind hemp, rfl, rfl, rfl, rfl⟩

theorem C9_empty_run_witness :
    execute_lottery c9Env c9Data shId 4 "L4"
      = (Except.ok (emptyResultOf c9Data 4 "L4"),
         c9Env.lotteries ++ [emptyResultOf c9Data 4 "L4"])
    ∧ (emptyResultOf c9Data 4 "L4").winners = []
    ∧ (emptyResultOf c9Data 4 "L4").non_winners = []
    ∧ (emptyResultOf c9Data 4 "L4").total_car_spots_offered = 5
    ∧ (emptyResultOf c9Data 4 "L4").total_moto_spots_offered = 3 :=
  @C9_empty_run c9Env c9Data shId 4 "L4" (by decide) (by decide)

/-- Claim C10: in every produced result, every winner entry carries a
non-null assigned spot and every non-winner entry a null spot: an entry is a
winner exactly when its spot field is non-null. -/
theorem C10_winner_iff_spot {env : Env} {d : LotteryCreate}
    {sh : Nat → List Candidate → List Candidate} {now : Nat} {newId : String}
    {res : LotteryResult}
    (hok : (execute_lottery env d sh now newId).1 = Except.ok res) :
    (∀ p ∈ res.winners, p.spot ≠ none) ∧ (∀ p ∈ res.non_winners, p.spot = none) := by
  rcases execute_ok_cases hok with ⟨_, rfl⟩ | ⟨boost, hb, hne, rfl⟩
  · constructor <;> intro p hp <;> exact absurd hp (List.not_mem_nil p)
  · have hinv := runAllocation_inv
      (orderCandidates sh boost (buildCandidates env.users (loadAccepted env d.period)))
      (generate_spots d.num_car_spots d.num_moto_spots).1
      (generate_spots d.num_car_spots d.num_moto_spots).2
    exact ⟨fun p hp => Option.isSome_iff_ne_none.mp (hinv.win_spots p hp),
      hinv.lose_spots⟩

theorem C10_winner_iff_spot_witness :
    (∀ p ∈ dupRes2.winners, p.spot ≠ none)
    ∧ (∀ p ∈ dupRes2.non_winners, p.spot = none) :=
  @C10_winner_iff_spot dupEnv dupData2 shId 0 "L1" dupRes2 (by decide)

end ParkNet
